import Mathlib

/-!
Verification development for the appimage-configs repository.

The repository consists of two Python scripts:
  * `scripts/validate_configs.py` — rule-based validation of JSON application
    configuration files (class `ConfigValidator`);
  * `scripts/update_index.py` — content hashing (`compute_sha256`,
    `compute_repo_hash`), application-name resolution (`extract_app_name`),
    and index generation (`build_index`, `update_index`).

This file gives a shallow embedding of both scripts and proves properties of
the embedding.  Conventions used throughout:

  * Parsed JSON documents are modelled by the inductive type `Json`
    (numbers restricted to integers; JSON object keys are strings, in
    insertion order, exactly as `json.load` produces them).
  * Python exceptions that the scripts do not catch (`TypeError`,
    `KeyError`, `AttributeError`) are modelled with `Except String`; the
    error string names the Python exception.
  * External collaborators are parameters: the regex engine `re.compile`
    is a predicate `reOk : String → Bool` (success of compilation), the
    `jsonschema` library is a function returning the list of violations of
    a document, from which `jsonschema.validate` raises only one (its
    best-match error), and `json.dump` serialization is a function
    `dump : PyDict → List Nat`.
  * File contents are byte lists (`List Nat`); the result of `json.load`
    on a file is carried by the file model (`ConfigFile.read`), since the
    JSON text parser itself is the standard library's.
-/

/-! ### Python string comparison

Python compares strings lexicographically by Unicode code point.  `chLe`
is that comparison on char lists, and `pySorted` is `sorted()` on string
lists (Python's sort is stable, but on strings stability is invisible
because equal strings are identical). -/

def chLe : List Char → List Char → Bool
  | [], _ => true
  | _ :: _, [] => false
  | c :: cs, d :: ds =>
    decide (c.toNat < d.toNat) || (decide (c.toNat = d.toNat) && chLe cs ds)

def strLe (a b : String) : Bool := chLe a.toList b.toList

theorem char_toNat_inj {c d : Char} (h : c.toNat = d.toNat) : c = d := by
  apply Char.ext
  apply UInt32.ext
  exact h

theorem str_toList_inj {a b : String} (h : a.toList = b.toList) : a = b := by
  cases a; cases b
  exact congrArg String.mk h

theorem chLe_total : ∀ l m, chLe l m = true ∨ chLe m l = true := by
  intro l
  induction l with
  | nil => intro m; left; rfl
  | cons c cs ih =>
    intro m
    cases m with
    | nil => right; rfl
    | cons d ds =>
      simp only [chLe, Bool.or_eq_true, Bool.and_eq_true, decide_eq_true_eq]
      rcases Nat.lt_trichotomy c.toNat d.toNat with h | h | h
      · left; left; exact h
      · rcases ih ds with h1 | h1
        · left; right; exact ⟨h, h1⟩
        · right; right; exact ⟨h.symm, h1⟩
      · right; left; exact h

theorem chLe_antisymm : ∀ l m, chLe l m = true → chLe m l = true → l = m := by
  intro l
  induction l with
  | nil =>
    intro m _ h2
    cases m with
    | nil => rfl
    | cons d ds => simp [chLe] at h2
  | cons c cs ih =>
    intro l m h1
    cases l with
    | nil => simp [chLe] at m
    | cons d ds =>
      simp only [chLe, Bool.or_eq_true, Bool.and_eq_true, decide_eq_true_eq] at m h1
      rcases m with h1l | ⟨he1, h1l⟩
      · rcases h1 with h2 | ⟨he2, h2⟩
        · omega
        · omega
      · rcases h1 with h2 | ⟨he2, h2⟩
        · omega
        · have hcd : c = d := char_toNat_inj he1
          rw [hcd, ih ds h1l h2]

theorem chLe_trans : ∀ l m k, chLe l m = true → chLe m k = true → chLe l k = true := by
  intro l
  induction l with
  | nil => intro m k _ _; rfl
  | cons c cs ih =>
    intro m k h1 h2
    cases m with
    | nil => simp [chLe] at h1
    | cons d ds =>
      cases k with
      | nil => simp [chLe] at h2
      | cons e es =>
        simp only [chLe, Bool.or_eq_true, Bool.and_eq_true, decide_eq_true_eq] at h1 h2 ⊢
        rcases h1 with h1 | ⟨he1, h1⟩
        · rcases h2 with h2 | ⟨he2, h2⟩
          · left; omega
          · left; omega
        · rcases h2 with h2 | ⟨he2, h2⟩
          · left; omega
          · right; exact ⟨he1.trans he2, ih ds es h1 h2⟩

theorem strLe_antisymm (a b : String) (h1 : strLe a b = true) (h2 : strLe b a = true) :
    a = b :=
  str_toList_inj (chLe_antisymm a.toList b.toList h1 h2)

/-- Model of Python `sorted()` on a list of strings. -/
def pySorted (l : List String) : List String :=
  List.insertionSort (fun a b => strLe a b = true) l

theorem pySorted_congr_perm {l₁ l₂ : List String} (h : l₁.Perm l₂) :
    pySorted l₁ = pySorted l₂ := by
  have ha : IsAntisymm String (fun a b => strLe a b = true) :=
    ⟨fun a b h1 h2 => strLe_antisymm a b h1 h2⟩
  have ht : IsTrans String (fun a b => strLe a b = true) :=
    ⟨fun a b c h1 h2 => chLe_trans a.toList b.toList c.toList h1 h2⟩
  have hto : IsTotal String (fun a b => strLe a b = true) :=
    ⟨fun a b => chLe_total a.toList b.toList⟩
  apply @List.eq_of_perm_of_sorted String (fun a b => strLe a b = true) ha
  · exact ((List.perm_insertionSort _ l₁).trans h).trans (List.perm_insertionSort _ l₂).symm
  · exact @List.sorted_insertionSort String _ (fun a b => instDecidableEqBool _ _) hto ht l₁
  · exact @List.sorted_insertionSort String _ (fun a b => instDecidableEqBool _ _) hto ht l₂

/-! ### JSON values -/

/-- Parsed JSON values as produced by Python's `json.load`: numbers are
restricted to integers, object keys are strings kept in insertion order. -/
inductive Json where
  | null : Json
  | bool (b : Bool) : Json
  | num (n : Int) : Json
  | str (s : String) : Json
  | arr (xs : List Json) : Json
  | obj (kvs : List (String × Json)) : Json

/-- Python truthiness of a JSON value (`None`, `False`, `0`, `""`, `[]` and
`{}` are falsy, everything else truthy). -/
def Json.truthy : Json → Bool
  | .null => false
  | .bool b => b
  | .num n => decide (n ≠ 0)
  | .str s => !s.toList.isEmpty
  | .arr xs => !xs.isEmpty
  | .obj kvs => !kvs.isEmpty

def Json.isStr : Json → Bool
  | .str _ => true
  | _ => false

/-- Python `dict.get k` / `k in dict` on a JSON object (string keys). -/
def objGet (kvs : List (String × Json)) (k : String) : Option Json :=
  (kvs.find? (fun p => p.1 == k)).map Prod.snd

def objHasKey (kvs : List (String × Json)) (k : String) : Bool :=
  kvs.any (fun p => p.1 == k)

def pyStartsWith (s p : String) : Bool := p.toList.isPrefixOf s.toList

def pyLower (s : String) : String := String.mk (s.toList.map Char.toLower)

/-- Model of Python `needle in hay` for strings (substring containment). -/
def pySubstr (needle hay : String) : Bool :=
  hay.toList.tails.any (fun t => needle.toList.isPrefixOf t)

/-- Model of Python `k in config` for an arbitrary parsed JSON value: key
membership for objects, element membership for arrays, substring test for
strings, and a `TypeError` otherwise. -/
def pyContains (config : Json) (k : String) : Except String Bool :=
  match config with
  | .obj kvs => .ok (objHasKey kvs k)
  | .arr xs => .ok (xs.any (fun j => match j with | .str s => s == k | _ => false))
  | .str s => .ok (pySubstr k s)
  | _ => .error "TypeError: argument is not iterable"

/-- Model of Python `config[k]` for a string key `k`: object lookup
(`KeyError` when missing), `TypeError` on lists, strings and scalars. -/
def pySubscript (config : Json) (k : String) : Except String Json :=
  match config with
  | .obj kvs =>
    match objGet kvs k with
    | some v => .ok v
    | none => .error "KeyError"
  | _ => .error "TypeError: value is not subscriptable with a string key"

/-- Model of Python `v[0]`: list indexing, single-character slice of a
string, `KeyError` on dicts (JSON object keys are strings, never `0`),
`TypeError` on scalars. -/
def pyIndex0 (v : Json) : Except String Json :=
  match v with
  | .arr (x :: _) => .ok x
  | .arr [] => .error "IndexError"
  | .str s =>
    match s.toList with
    | c :: _ => .ok (.str (String.mk [c]))
    | [] => .error "IndexError"
  | .obj _ => .error "KeyError: 0"
  | _ => .error "TypeError: value is not subscriptable"

/-- Model of Python `v.get(k)` (default `None`): only dicts have `.get`,
anything else raises `AttributeError`. -/
def pyGetAttrGet (v : Json) (k : String) : Except String Json :=
  match v with
  | .obj kvs => .ok ((objGet kvs k).getD .null)
  | _ => .error "AttributeError: value has no attribute get"

/-- Model of `pathlib.Path.stem`: the file name with its last suffix
removed, where a suffix requires a dot at position `i` with
`0 < i < length - 1`. -/
def pyStem (s : String) : String :=
  let l := s.toList
  match l.reverse.findIdx? (fun c => c == '.') with
  | none => s
  | some rj =>
    let i := l.length - 1 - rj
    if 0 < i && i < l.length - 1 then String.mk (l.take i) else s

/-! ### UTF-8 and SHA-256

`compute_sha256` and `compute_repo_hash` hash bytes with
`hashlib.sha256`.  The hash is implemented here directly (FIPS 180-4),
on `Nat` with explicit reduction modulo `2^32`. -/

def utf8Bytes (c : Char) : List Nat :=
  let n := c.toNat
  if n < 128 then [n]
  else if n < 2048 then [192 + (n >>> 6), 128 + (n &&& 63)]
  else if n < 65536 then
    [224 + (n >>> 12), 128 + ((n >>> 6) &&& 63), 128 + (n &&& 63)]
  else
    [240 + (n >>> 18), 128 + ((n >>> 12) &&& 63), 128 + ((n >>> 6) &&& 63), 128 + (n &&& 63)]

/-- Model of Python `str.encode()` (UTF-8). -/
def utf8Encode (s : String) : List Nat := (s.toList.map utf8Bytes).flatten

def w32 (n : Nat) : Nat := n % 4294967296

def rotr32 (x n : Nat) : Nat := w32 ((x >>> n) ||| (x <<< (32 - n)))

def compl32 (x : Nat) : Nat := x ^^^ 4294967295

def sha256K : List Nat :=
  [1116352408, 1899447441, 3049323471, 3921009573, 961987163, 1508970993,
   2453635748, 2870763221, 3624381080, 310598401, 607225278, 1426881987,
   1925078388, 2162078206, 2614888103, 3248222580, 3835390401, 4022224774,
   264347078, 604807628, 770255983, 1249150122, 1555081692, 1996064986,
   2554220882, 2821834349, 2952996808, 3210313671, 3336571891, 3584528711,
   113926993, 338241895, 666307205, 773529912, 1294757372, 1396182291,
   1695183700, 1986661051, 2177026350, 2456956037, 2730485921, 2820302411,
   3259730800, 3345764771, 3516065817, 3600352804, 4094571909, 275423344,
   430227734, 506948616, 659060556, 883997877, 958139571, 1322822218,
   1537002063, 1747873779, 1955562222, 2024104815, 2227730452, 2361852424,
   2428436474, 2756734187, 3204031479, 3329325298]

def sha256H0 : List Nat :=
  [1779033703, 3144134277, 1013904242, 2773480762, 1359893119, 2600822924,
   528734635, 1541459225]

def be64 (n : Nat) : List Nat :=
  [(n >>> 56) % 256, (n >>> 48) % 256, (n >>> 40) % 256, (n >>> 32) % 256,
   (n >>> 24) % 256, (n >>> 16) % 256, (n >>> 8) % 256, n % 256]

/-- SHA-256 padding: append `0x80`, zeros to 56 mod 64, then the bit
length as an 8-byte big-endian integer. -/
def sha256Pad (msg : List Nat) : List Nat :=
  let L := msg.length
  let k := (56 + 64 - ((L + 1) % 64)) % 64
  msg ++ [128] ++ List.replicate k 0 ++ be64 (8 * L)

def splitBlocks : Nat → List Nat → List (List Nat)
  | 0, _ => []
  | n + 1, l => l.take 64 :: splitBlocks n (l.drop 64)

def words16 (block : List Nat) : List Nat :=
  (List.range 16).map (fun i =>
    w32 ((block.getD (4 * i) 0 <<< 24) + (block.getD (4 * i + 1) 0 <<< 16) +
         (block.getD (4 * i + 2) 0 <<< 8) + block.getD (4 * i + 3) 0))

def smallSigma0 (x : Nat) : Nat := rotr32 x 7 ^^^ rotr32 x 18 ^^^ (x >>> 3)

def smallSigma1 (x : Nat) : Nat := rotr32 x 17 ^^^ rotr32 x 19 ^^^ (x >>> 10)

def bigSigma0 (x : Nat) : Nat := rotr32 x 2 ^^^ rotr32 x 13 ^^^ rotr32 x 22

def bigSigma1 (x : Nat) : Nat := rotr32 x 6 ^^^ rotr32 x 11 ^^^ rotr32 x 25

/-- Message-schedule extension; the accumulator holds the schedule in
reverse (most recent word first). -/
def extendSchedule : Nat → List Nat → List Nat
  | 0, r => r
  | n + 1, r =>
    let nw := w32 (smallSigma1 (r.getD 1 0) + r.getD 6 0 + smallSigma0 (r.getD 14 0) + r.getD 15 0)
    extendSchedule n (nw :: r)

def messageSchedule (w16 : List Nat) : List Nat :=
  (extendSchedule 48 w16.reverse).reverse

/-- One compression round; the register file is `[a, b, c, d, e, f, g, h]`
and `wk` is the pair (schedule word, round constant). -/
def roundStep (r : List Nat) (wk : Nat × Nat) : List Nat :=
  let a := r.getD 0 0
  let b := r.getD 1 0
  let c := r.getD 2 0
  let d := r.getD 3 0
  let e := r.getD 4 0
  let f := r.getD 5 0
  let g := r.getD 6 0
  let h := r.getD 7 0
  let t1 := w32 (h + bigSigma1 e + ((e &&& f) ^^^ (compl32 e &&& g)) + wk.1 + wk.2)
  let t2 := w32 (bigSigma0 a + ((a &&& b) ^^^ (a &&& c) ^^^ (b &&& c)))
  [w32 (t1 + t2), a, b, c, w32 (d + t1), e, f, g]

def compressBlock (hs : List Nat) (block : List Nat) : List Nat :=
  let w := messageSchedule (words16 block)
  let r := (w.zip sha256K).foldl roundStep hs
  List.zipWith (fun x y => w32 (x + y)) hs r

def sha256Words (msg : List Nat) : List Nat :=
  let padded := sha256Pad msg
  (splitBlocks (padded.length / 64) padded).foldl compressBlock sha256H0

def hexDigitChar (n : Nat) : Char := "0123456789abcdef".toList.getD n '0'

def wordToHex (x : Nat) : List Char :=
  (List.range 8).map (fun i => hexDigitChar ((x >>> (4 * (7 - i))) &&& 15))

/-- Hex digest of the SHA-256 of a byte list, as `hashlib`'s
`.hexdigest()` returns it. -/
def sha256hex (msg : List Nat) : String :=
  String.mk ((sha256Words msg).map wordToHex).flatten

/-! ### Facts about the digest format -/

def hexChars : List Char := "0123456789abcdef".toList

theorem hexDigitChar_mem (n : Nat) (h : n < 16) : hexDigitChar n ∈ hexChars := by
  interval_cases n <;> decide

theorem wordToHex_length (x : Nat) : (wordToHex x).length = 8 := by
  simp [wordToHex]

theorem wordToHex_mem (x : Nat) (c : Char) (h : c ∈ wordToHex x) : c ∈ hexChars := by
  simp only [wordToHex, List.mem_map] at h
  obtain ⟨i, _, rfl⟩ := h
  exact hexDigitChar_mem _ (Nat.lt_succ_of_le (Nat.and_le_right))

theorem roundStep_length (r : List Nat) (wk : Nat × Nat) : (roundStep r wk).length = 8 := by
  simp [roundStep]

theorem foldl_roundStep_length (ps : List (Nat × Nat)) (r : List Nat) (h : r.length = 8) :
    (ps.foldl roundStep r).length = 8 := by
  induction ps generalizing r with
  | nil => simpa using h
  | cons p ps ih => exact ih _ (roundStep_length _ _)

theorem compressBlock_length (hs block : List Nat) (h : hs.length = 8) :
    (compressBlock hs block).length = 8 := by
  have hr := foldl_roundStep_length ((messageSchedule (words16 block)).zip sha256K) hs h
  simp [compressBlock, h, hr]

theorem foldl_compressBlock_length (bs : List (List Nat)) (hs : List Nat) (h : hs.length = 8) :
    (bs.foldl compressBlock hs).length = 8 := by
  induction bs generalizing hs with
  | nil => simpa using h
  | cons b bs ih => exact ih _ (compressBlock_length _ _ h)

theorem sha256Words_length (msg : List Nat) : (sha256Words msg).length = 8 :=
  foldl_compressBlock_length _ _ rfl

theorem sha256hex_length (msg : List Nat) : (sha256hex msg).toList.length = 64 := by
  have h8 := sha256Words_length msg
  unfold sha256hex
  generalize hws : sha256Words msg = ws at h8
  have : ∀ l : List Nat, ((l.map wordToHex).flatten).length = 8 * l.length := by
    intro l
    induction l with
    | nil => rfl
    | cons x xs ih => simp [ih, wordToHex_length, Nat.mul_succ, Nat.add_comm]
  simpa [String.toList, h8] using this ws

theorem sha256hex_mem (msg : List Nat) (c : Char) (h : c ∈ (sha256hex msg).toList) :
    c ∈ hexChars := by
  simp only [sha256hex, String.toList, List.mem_flatten, List.mem_map] at h
  obtain ⟨l, ⟨x, _, rfl⟩, hc⟩ := h
  exact wordToHex_mem x c hc

/-! ### File model

A config file as the scripts see it: its file name, its raw bytes
(hashed by `compute_sha256`), and the result of `json.load` on it
(`ReadResult`), which both `validate_file` and `extract_app_name`
obtain by reopening the file. -/

inductive ReadResult where
  | parsed (config : Json) : ReadResult
  | jsonError (msg : String) : ReadResult
  | osError (msg : String) : ReadResult

structure ConfigFile where
  name : String
  content : List Nat
  read : ReadResult

/-! ### validate_configs.py -/

/-- A single validation error (class `ValidationError`). -/
structure ValidationError where
  file : String
  message : String
  field : Option String
deriving DecidableEq

/-- Mutable state of a `ConfigValidator` instance: the accumulated error
and warning lists.  The `schema` attribute is passed as an explicit
parameter to the functions below. -/
structure ConfigValidator where
  errors : List ValidationError
  warnings : List ValidationError
deriving DecidableEq

/-- One violation reported by the external `jsonschema` library: its
message and its `absolute_path` (elements already stringified). -/
structure SchemaViolation where
  message : String
  path : List String

/-- Model of `jsonschema.validate` (external library): when the document
has any violations, it raises exactly one `ValidationError` — its
best-match pick, modelled as the head of the violation list. -/
def jsonschemaValidate (violations : List SchemaViolation) : Option SchemaViolation :=
  violations.head?

def ConfigValidator.appendError (st : ConfigValidator) (e : ValidationError) : ConfigValidator :=
  { st with errors := st.errors ++ [e] }

def ConfigValidator.appendWarning (st : ConfigValidator) (e : ValidationError) : ConfigValidator :=
  { st with warnings := st.warnings ++ [e] }

/-- REQUIRED_APP_FIELDS (a Python set literal; iterated in its literal
order here). -/
def REQUIRED_APP_FIELDS : List String := ["name", "url", "download_dir", "pattern"]

def PATH_FIELDS : List String := ["download_dir", "symlink_path"]

def VALID_SOURCE_TYPES : List String :=
  ["github", "gitlab", "sourceforge", "direct", "direct_download", "dynamic_download"]

/-- Expected Python types of the optional fields. -/
inductive PyType where
  | str : PyType
  | strOrNone : PyType
  | bool : PyType
  | int : PyType
  | dict : PyType

def OPTIONAL_APP_FIELDS : List (String × PyType) :=
  [("source_type", .str), ("version_pattern", .strOrNone), ("basename", .strOrNone),
   ("enabled", .bool), ("prerelease", .bool), ("rotation_enabled", .bool),
   ("symlink_path", .strOrNone), ("retain_count", .int), ("checksum", .dict)]

/-- Model of Python `isinstance` against the expected-type table.  Note
that `bool` is a subclass of `int` in Python, so an `int` check accepts
booleans. -/
def isinstanceP : Json → PyType → Bool
  | .str _, .str => true
  | .str _, .strOrNone => true
  | .null, .strOrNone => true
  | .bool _, .bool => true
  | .num _, .int => true
  | .bool _, .int => true
  | .obj _, .dict => true
  | _, _ => false

def PyType.name : PyType → String
  | .str => "str"
  | .strOrNone => "(str, NoneType)"
  | .bool => "bool"
  | .int => "int"
  | .dict => "dict"

def Json.pyTypeName : Json → String
  | .null => "NoneType"
  | .bool _ => "bool"
  | .num _ => "int"
  | .str _ => "str"
  | .arr _ => "list"
  | .obj _ => "dict"

/-- Model of `re.match(r"^[A-Za-z0-9_-]+$", s)`: one or more characters of
the class, with `$` also matching just before one trailing newline. -/
def pyNameMatch (s : String) : Bool :=
  let inClass := fun (c : Char) => c.isAlpha || c.isDigit || c == '_' || c == '-'
  let core := fun (l : List Char) => !l.isEmpty && l.all inClass
  core s.toList ||
    (match s.toList.getLast? with
     | some c => c == '\n' && core s.toList.dropLast
     | none => false)

/-- Model of the `^[A-Za-z]:` Windows-drive test of `_validate_paths`. -/
def driveLetterPrefix (s : String) : Bool :=
  match s.toList with
  | a :: b :: _ => a.isAlpha && b == ':'
  | _ => false

/-- Body of the required-field loop of `_validate_app` (lines 162-171):
missing field, or a `None`/`""` value, each append one error. -/
def ConfigValidator.required_field_check (st : ConfigValidator) (filename : String)
    (app : List (String × Json)) (px : String) (field : String) : ConfigValidator :=
  if !objHasKey app field then
    st.appendError ⟨filename, "Missing required field", some (px ++ "." ++ field)⟩
  else
    match objGet app field with
    | some .null => st.appendError ⟨filename, "Field cannot be empty", some (px ++ "." ++ field)⟩
    | some (.str "") => st.appendError ⟨filename, "Field cannot be empty", some (px ++ "." ++ field)⟩
    | _ => st

/-- Model of the required-field loop of `_validate_app`. -/
def ConfigValidator.validate_required (st : ConfigValidator) (filename : String)
    (app : List (String × Json)) (px : String) : ConfigValidator :=
  REQUIRED_APP_FIELDS.foldl
    (fun st field => ConfigValidator.required_field_check st filename app px field)
    st

/-- Model of `_validate_name`. -/
def ConfigValidator.validate_name (st : ConfigValidator) (filename : String)
    (app : List (String × Json)) (px : String) : ConfigValidator :=
  let v := (objGet app "name").getD .null
  if !v.truthy then st
  else
    match v with
    | .str s =>
      if pyNameMatch s then st
      else st.appendWarning
        ⟨filename, "Name \x27" ++ s ++ "\x27 contains special characters", some (px ++ ".name")⟩
    | _ => st.appendError ⟨filename, "Must be a string", some (px ++ ".name")⟩

/-- Model of `_validate_url`. -/
def ConfigValidator.validate_url (st : ConfigValidator) (filename : String)
    (app : List (String × Json)) (px : String) : ConfigValidator :=
  let v := (objGet app "url").getD .null
  if !v.truthy then st
  else
    match v with
    | .str s =>
      if pyStartsWith s "http://" || pyStartsWith s "https://" then st
      else st.appendError
        ⟨filename, "URL must start with http:// or https://", some (px ++ ".url")⟩
    | _ => st.appendError ⟨filename, "Must be a string", some (px ++ ".url")⟩

/-- Model of `_validate_pattern`; `reOk` stands for success of
`re.compile` (the engine message of a failure is abbreviated). -/
def ConfigValidator.validate_pattern (reOk : String → Bool) (st : ConfigValidator)
    (filename : String) (app : List (String × Json)) (px : String) : ConfigValidator :=
  let v := (objGet app "pattern").getD .null
  if !v.truthy then st
  else
    match v with
    | .str s =>
      if reOk s then st
      else st.appendError ⟨filename, "Invalid regex", some (px ++ ".pattern")⟩
    | _ => st.appendError ⟨filename, "Must be a string", some (px ++ ".pattern")⟩

/-- Model of `_validate_paths` (note: `app.get(field)` returns `None`
both for a missing key and for a JSON `null` value, and both are
skipped). -/
def ConfigValidator.path_field_check (st : ConfigValidator) (filename : String)
    (app : List (String × Json)) (px : String) (field : String) : ConfigValidator :=
  match (objGet app field).getD .null with
  | .null => st
  | .str s =>
    if pyStartsWith s "/" then
      st.appendError ⟨filename,
        "Path must be relative, not absolute: \x27" ++ s ++ "\x27", some (px ++ "." ++ field)⟩
    else if pyStartsWith s "~" then
      st.appendError ⟨filename,
        "Path must be relative, not use ~: \x27" ++ s ++ "\x27", some (px ++ "." ++ field)⟩
    else if driveLetterPrefix s then
      st.appendError ⟨filename,
        "Path must be relative, not absolute: \x27" ++ s ++ "\x27", some (px ++ "." ++ field)⟩
    else st
  | _ => st.appendError ⟨filename, "Must be a string", some (px ++ "." ++ field)⟩

def ConfigValidator.validate_paths (st : ConfigValidator) (filename : String)
    (app : List (String × Json)) (px : String) : ConfigValidator :=
  PATH_FIELDS.foldl
    (fun st field => ConfigValidator.path_field_check st filename app px field)
    st

/-- Model of `_validate_source_type` (the printed list of valid values is
abbreviated in the message). -/
def ConfigValidator.validate_source_type (st : ConfigValidator) (filename : String)
    (app : List (String × Json)) (px : String) : ConfigValidator :=
  match (objGet app "source_type").getD .null with
  | .null => st
  | .str s =>
    if VALID_SOURCE_TYPES.contains s then st
    else st.appendError
      ⟨filename, "Invalid source_type \x27" ++ s ++ "\x27", some (px ++ ".source_type")⟩
  | _ => st.appendError ⟨filename, "Must be a string", some (px ++ ".source_type")⟩

/-- Model of `_validate_checksum` (the `algorithm` membership test is on
the raw value, so any non-string value is also an invalid algorithm). -/
def ConfigValidator.validate_checksum (st : ConfigValidator) (filename : String)
    (app : List (String × Json)) (px : String) : ConfigValidator :=
  match (objGet app "checksum").getD .null with
  | .null => st
  | .obj c =>
    let st1 :=
      if objHasKey c "enabled" then
        match objGet c "enabled" with
        | some (.bool _) => st
        | _ => st.appendError ⟨filename, "Must be a boolean", some (px ++ ".checksum.enabled")⟩
      else st
    if objHasKey c "algorithm" then
      match objGet c "algorithm" with
      | some (.str s) =>
        if s == "sha256" || s == "sha512" || s == "md5" then st1
        else st1.appendError ⟨filename, "Invalid algorithm", some (px ++ ".checksum.algorithm")⟩
      | _ => st1.appendError ⟨filename, "Invalid algorithm", some (px ++ ".checksum.algorithm")⟩
    else st1
  | _ => st.appendError ⟨filename, "Must be an object", some (px ++ ".checksum")⟩

def ConfigValidator.optional_field_check (st : ConfigValidator) (filename : String)
    (app : List (String × Json)) (px : String) (fieldTy : String × PyType) : ConfigValidator :=
  if fieldTy.1 == "checksum" then st
  else
    match objGet app fieldTy.1 with
    | none => st
    | some v =>
      if isinstanceP v fieldTy.2 then st
      else st.appendError
        ⟨filename, "Expected type " ++ fieldTy.2.name ++ ", got " ++ v.pyTypeName,
         some (px ++ "." ++ fieldTy.1)⟩

/-- Model of `_validate_optional_types`. -/
def ConfigValidator.validate_optional_types (st : ConfigValidator) (filename : String)
    (app : List (String × Json)) (px : String) : ConfigValidator :=
  OPTIONAL_APP_FIELDS.foldl
    (fun st fieldTy => ConfigValidator.optional_field_check st filename app px fieldTy)
    st

/-- Model of `_validate_app`. -/
def ConfigValidator.validate_app (reOk : String → Bool) (st : ConfigValidator)
    (filename : String) (app : Json) (i : Nat) : ConfigValidator :=
  let px := "applications[" ++ toString i ++ "]"
  match app with
  | .obj kvs =>
    let st1 := st.validate_required filename kvs px
    let st2 := st1.validate_name filename kvs px
    let st3 := st2.validate_url filename kvs px
    let st4 := ConfigValidator.validate_pattern reOk st3 filename kvs px
    let st5 := st4.validate_paths filename kvs px
    let st6 := st5.validate_source_type filename kvs px
    let st7 := st6.validate_checksum filename kvs px
    st7.validate_optional_types filename kvs px
  | _ => st.appendError ⟨filename, px ++ " must be an object", none⟩

/-- Model of the `for i, app in enumerate(...)` loop of `validate_file`. -/
def ConfigValidator.validate_apps_loop (reOk : String → Bool) (st : ConfigValidator)
    (filename : String) : List Json → Nat → ConfigValidator
  | [], _ => st
  | app :: rest, i =>
    ConfigValidator.validate_apps_loop reOk
      (ConfigValidator.validate_app reOk st filename app i) filename rest (i + 1)

/-- Model of the filename-convention check of `validate_file` (lines
136-148) plus the final verdict (line 150).  `initialCount` is
`initial_error_count`.  The first application entry is read back with
`.get("name", "")` and lower-cased; a non-dict entry or a non-string
name raises `AttributeError`. -/
def ConfigValidator.filename_check (st : ConfigValidator) (filename : String)
    (app0 : Json) (initialCount : Nat) : Except String Bool × ConfigValidator :=
  match app0 with
  | .obj kvs0 =>
    match (objGet kvs0 "name").getD (.str "") with
    | .str s =>
      let expected := pyLower s ++ ".json"
      if pyLower filename == pyLower expected then
        (.ok (st.errors.length == initialCount), st)
      else
        let st1 := st.appendWarning
          ⟨filename,
           "Filename \x27" ++ filename ++ "\x27 doesn\x27t match app name \x27" ++ s ++ "\x27",
           some "name"⟩
        (.ok (st1.errors.length == initialCount), st1)
    | _ => (.error "AttributeError: value has no attribute lower", st)
  | _ => (.error "AttributeError: value has no attribute get", st)

/-- Model of the schema step of `validate_file` (lines 102-111): when a
schema is in effect and the document has violations, exactly one error
is appended, carrying the message and dotted `absolute_path` of the one
violation the `jsonschema` library raised. -/
def ConfigValidator.schema_check (schema : Option (Json → List SchemaViolation))
    (st : ConfigValidator) (filename : String) (config : Json) : ConfigValidator :=
  match schema with
  | none => st
  | some sv =>
    match jsonschemaValidate (sv config) with
    | none => st
    | some v =>
      st.appendError
        ⟨filename, v.message,
         if v.path.isEmpty then none else some (String.intercalate "." v.path)⟩

/-- Model of `ConfigValidator.validate_file`.  The `schema` parameter is
`none` when no schema is in effect (no schema file, a falsy schema
document, or the `jsonschema` library missing); otherwise it maps a
document to the list of its schema violations, of which the library
raises only the first. -/
def ConfigValidator.validate_file (reOk : String → Bool)
    (schema : Option (Json → List SchemaViolation)) (st : ConfigValidator)
    (f : ConfigFile) : Except String Bool × ConfigValidator :=
  let initialCount := st.errors.length
  match f.read with
  | .jsonError e => (.ok false, st.appendError ⟨f.name, "Invalid JSON: " ++ e, none⟩)
  | .osError e => (.ok false, st.appendError ⟨f.name, "Cannot read file: " ++ e, none⟩)
  | .parsed config =>
    let st1 := ConfigValidator.schema_check schema st f.name config
    match pyContains config "applications" with
    | .error e => (.error e, st1)
    | .ok hasApps =>
      if !hasApps then
        (.ok false, st1.appendError ⟨f.name, "Missing \x27applications\x27 array", some "applications"⟩)
      else
        match pySubscript config "applications" with
        | .error e => (.error e, st1)
        | .ok apps =>
          match apps with
          | .arr xs =>
            if xs.isEmpty then
              (.ok false,
               st1.appendError ⟨f.name, "\x27applications\x27 array is empty", some "applications"⟩)
            else
              let st2 := ConfigValidator.validate_apps_loop reOk st1 f.name xs 0
              match xs.head? with
              | some app0 => ConfigValidator.filename_check st2 f.name app0 initialCount
              | none => (.ok (st2.errors.length == initialCount), st2)
          | _ =>
            (.ok false,
             st1.appendError ⟨f.name, "\x27applications\x27 must be an array", some "applications"⟩)

/-! ### update_index.py -/

/-- Model of `compute_sha256`: hash of the raw file bytes. -/
def compute_sha256 (content : List Nat) : String :=
  "sha256:" ++ sha256hex content

/-- Model of `compute_repo_hash`: sort the hashes, join with newlines,
hash the UTF-8 bytes of the joined string. -/
def compute_repo_hash (config_hashes : List String) : String :=
  "sha256:" ++ sha256hex (utf8Encode (String.intercalate "\n" (pySorted config_hashes)))

/-- Model of `extract_app_name`.  `JSONDecodeError`/`OSError` are caught
(returning `none` after a logged warning); any other exception
propagates.  The returned name is whatever truthy value Python finds —
not necessarily a string. -/
def extract_app_name (f : ConfigFile) : Except String (Option Json) :=
  match f.read with
  | .jsonError _ => .ok none
  | .osError _ => .ok none
  | .parsed config => do
    let hasApps ← pyContains config "applications"
    let fromApps ←
      if hasApps then do
        let apps ← pySubscript config "applications"
        if apps.truthy then do
          let first ← pyIndex0 apps
          let appName ← pyGetAttrGet first "name"
          pure (if appName.truthy then some appName else none)
        else
          pure none
      else
        pure (none : Option Json)
    match fromApps with
    | some v => pure (some v)
    | none => do
      let topName ← pyGetAttrGet config "name"
      if topName.truthy then
        pure (some topName)
      else
        pure (some (.str (pyStem f.name)))

/-- Python dict-key equality for the hashable JSON scalars (in Python,
`True == 1` and `False == 0`, so such keys coincide). -/
def Json.keyEq : Json → Json → Bool
  | .null, .null => true
  | .bool a, .bool b => a == b
  | .bool a, .num b => (if a then (1 : Int) else 0) == b
  | .num a, .bool b => a == (if b then (1 : Int) else 0)
  | .num a, .num b => a == b
  | .str a, .str b => a == b
  | _, _ => false

/-- A JSON value usable as a Python dict key (lists and dicts are
unhashable). -/
def Json.hashable : Json → Bool
  | .arr _ => false
  | .obj _ => false
  | _ => true

/-- A Python dict with JSON keys and values, in insertion order. -/
abbrev PyDict := List (Json × Json)

def dictGet (d : PyDict) (k : Json) : Option Json :=
  (List.find? (fun p => Json.keyEq p.1 k) d).map Prod.snd

def dictHasKey (d : PyDict) (k : Json) : Bool :=
  List.any d (fun p => Json.keyEq p.1 k)

/-- Model of `d[k] = v`: replace in place when the key exists (keeping
its position and original key object), append otherwise. -/
def dictSet (d : PyDict) (k v : Json) : PyDict :=
  if dictHasKey d k then
    List.map (fun p => if Json.keyEq p.1 k then (p.1, v) else p) d
  else
    d ++ [(k, v)]

/-- Accumulator of the `build_index` scan loop. -/
structure BuildAcc where
  apps : PyDict
  config_hashes : List String
  validation_failed : Bool

/-- Model of the scan loop of `build_index` (lines 93-108), over the
files in sorted order.  An application name that is an unhashable value
would raise `TypeError` at `apps[app_name]`. -/
def build_index_loop (reOk : String → Bool) (schema : Option (Json → List SchemaViolation)) :
    List ConfigFile → BuildAcc → ConfigValidator → Except String BuildAcc × ConfigValidator
  | [], acc, st => (.ok acc, st)
  | f :: rest, acc, st =>
    match ConfigValidator.validate_file reOk schema st f with
    | (.error e, st1) => (.error e, st1)
    | (.ok false, st1) =>
      build_index_loop reOk schema rest { acc with validation_failed := true } st1
    | (.ok true, st1) =>
      match extract_app_name f with
      | .error e => (.error e, st1)
      | .ok none => build_index_loop reOk schema rest acc st1
      | .ok (some nameVal) =>
        if nameVal.hashable then
          let fileHash := compute_sha256 f.content
          let entry := Json.arr [.str ("configs/" ++ f.name), .str fileHash]
          build_index_loop reOk schema rest
            { acc with
              apps := dictSet acc.apps nameVal entry,
              config_hashes := acc.config_hashes ++ [fileHash] }
            st1
        else (.error "TypeError: unhashable type", st1)

/-- Files of the configs directory in the order `sorted(glob("*.json"))`
produces them (lexicographic by file name). -/
def sortFiles (files : List ConfigFile) : List ConfigFile :=
  List.insertionSort (fun a b => strLe a.name b.name = true) files

/-- Model of the final dict literal of `build_index` (lines 121-125):
`{"repo_hash": ..., "generated_at": ..., **apps}` — the two metadata
pairs first, then every entry of `apps` set in insertion order. -/
def assembleIndex (apps : PyDict) (config_hashes : List String) (now : String) : PyDict :=
  apps.foldl (fun d p => dictSet d p.1 p.2)
    [(Json.str "repo_hash", Json.str (compute_repo_hash config_hashes)),
     (Json.str "generated_at", Json.str now)]

/-- Model of `build_index`.  `configs_dir` is `none` when the directory
does not exist, otherwise the list of its `*.json` files; `now` is the
`datetime.now(timezone.utc).isoformat()` timestamp. -/
def build_index (reOk : String → Bool) (schema : Option (Json → List SchemaViolation))
    (configs_dir : Option (List ConfigFile)) (now : String) (st : ConfigValidator) :
    Except String (Option PyDict) × ConfigValidator :=
  match configs_dir with
  | none => (.ok none, st)
  | some files =>
    match build_index_loop reOk schema (sortFiles files) ⟨[], [], false⟩ st with
    | (.error e, st1) => (.error e, st1)
    | (.ok acc, st1) =>
      if acc.validation_failed then (.ok none, st1)
      else if acc.apps.isEmpty then (.ok none, st1)
      else (.ok (some (assembleIndex acc.apps acc.config_hashes now)), st1)

/-- Persisted state the script touches: the contents of `index.json` and
of the temporary `new_index.json` (each `none` when absent). -/
structure RepoFS where
  index : Option (List Nat)
  new_index : Option (List Nat)
deriving DecidableEq

/-- Model of `update_index`: build the index with a fresh validator; on
failure return `False` touching nothing; on success write the serialized
index (`dump` models `json.dump` plus the trailing newline) to
`new_index.json` and atomically rename it onto `index.json`. -/
def update_index (reOk : String → Bool) (schema : Option (Json → List SchemaViolation))
    (dump : PyDict → List Nat) (fs : RepoFS) (configs_dir : Option (List ConfigFile))
    (now : String) : Except String (Bool × RepoFS) :=
  match build_index reOk schema configs_dir now ⟨[], []⟩ with
  | (.error e, _) => .error e
  | (.ok none, _) => .ok (false, fs)
  | (.ok (some index), _) =>
    let fs1 : RepoFS := { fs with new_index := some (dump index) }
    let fs2 : RepoFS := { index := fs1.new_index, new_index := none }
    .ok (true, fs2)

/-! ### Frame lemmas

Every validator helper only appends to the error and warning lists, and
what it appends does not depend on the lists already accumulated.
`IsFrame g` captures this: running `g` from any state is running it from
a fresh validator and prepending the old lists. -/

def IsFrame (g : ConfigValidator → ConfigValidator) : Prop :=
  ∀ st, (g st).errors = st.errors ++ (g ⟨[], []⟩).errors ∧
        (g st).warnings = st.warnings ++ (g ⟨[], []⟩).warnings

theorem isFrame_id : IsFrame (fun st => st) := by
  intro st
  constructor <;> simp

theorem isFrame_appendError (e : ValidationError) :
    IsFrame (fun st => st.appendError e) := by
  intro st
  constructor <;> simp [ConfigValidator.appendError]

theorem isFrame_appendWarning (e : ValidationError) :
    IsFrame (fun st => st.appendWarning e) := by
  intro st
  constructor <;> simp [ConfigValidator.appendWarning]

theorem isFrame_comp (f g : ConfigValidator → ConfigValidator)
    (hf : IsFrame f) (hg : IsFrame g) : IsFrame (fun st => g (f st)) := by
  intro st
  obtain ⟨he, hw⟩ := hf st
  obtain ⟨he2, hw2⟩ := hg (f st)
  obtain ⟨he0, hw0⟩ := hf ⟨[], []⟩
  obtain ⟨heF, hwF⟩ := hg (f ⟨[], []⟩)
  constructor
  · rw [he2, he, heF, he0]
    simp [List.append_assoc]
  · rw [hw2, hw, hwF, hw0]
    simp [List.append_assoc]

theorem isFrame_foldl {α : Type} (step : ConfigValidator → α → ConfigValidator)
    (h : ∀ a, IsFrame (fun st => step st a)) :
    ∀ l : List α, IsFrame (fun st => l.foldl step st) := by
  intro l
  induction l with
  | nil => intro st; constructor <;> simp
  | cons a l ih =>
    have hc := isFrame_comp (fun st => step st a) (fun st => l.foldl step st) (h a) ih
    intro st
    simpa [List.foldl] using hc st

theorem required_field_check_isFrame (fn : String) (app : List (String × Json))
    (px field : String) :
    IsFrame (fun st => ConfigValidator.required_field_check st fn app px field) := by
  intro st
  unfold ConfigValidator.required_field_check
  rcases hk : objHasKey app field with _ | _ <;>
    rcases hv : objGet app field with _ | v <;>
      simp only [hk, hv] <;> (repeat' split) <;>
        simp_all [ConfigValidator.appendError, ConfigValidator.appendWarning]

theorem validate_required_isFrame (fn : String) (app : List (String × Json)) (px : String) :
    IsFrame (fun st => ConfigValidator.validate_required st fn app px) := by
  apply isFrame_foldl
  intro field
  exact required_field_check_isFrame fn app px field

theorem validate_name_isFrame (fn : String) (app : List (String × Json)) (px : String) :
    IsFrame (fun st => ConfigValidator.validate_name st fn app px) := by
  intro st
  unfold ConfigValidator.validate_name
  rcases hv : (objGet app "name").getD .null with _ | b | n | s | xs | kvs <;>
    simp only [hv] <;> (repeat' split) <;>
      simp_all [ConfigValidator.appendError, ConfigValidator.appendWarning]

theorem validate_url_isFrame (fn : String) (app : List (String × Json)) (px : String) :
    IsFrame (fun st => ConfigValidator.validate_url st fn app px) := by
  intro st
  unfold ConfigValidator.validate_url
  rcases hv : (objGet app "url").getD .null with _ | b | n | s | xs | kvs <;>
    simp only [hv] <;> (repeat' split) <;>
      simp_all [ConfigValidator.appendError, ConfigValidator.appendWarning]

theorem validate_pattern_isFrame (reOk : String → Bool) (fn : String)
    (app : List (String × Json)) (px : String) :
    IsFrame (fun st => ConfigValidator.validate_pattern reOk st fn app px) := by
  intro st
  unfold ConfigValidator.validate_pattern
  rcases hv : (objGet app "pattern").getD .null with _ | b | n | s | xs | kvs <;>
    simp only [hv] <;> (repeat' split) <;>
      simp_all [ConfigValidator.appendError, ConfigValidator.appendWarning]

theorem path_field_check_isFrame (fn : String) (app : List (String × Json))
    (px field : String) :
    IsFrame (fun st => ConfigValidator.path_field_check st fn app px field) := by
  intro st
  unfold ConfigValidator.path_field_check
  rcases hv : (objGet app field).getD .null with _ | b | n | s | xs | kvs <;>
    simp only [hv] <;> (repeat' split) <;>
      simp_all [ConfigValidator.appendError, ConfigValidator.appendWarning]

theorem validate_paths_isFrame (fn : String) (app : List (String × Json)) (px : String) :
    IsFrame (fun st => ConfigValidator.validate_paths st fn app px) := by
  apply isFrame_foldl
  intro field
  exact path_field_check_isFrame fn app px field

theorem validate_source_type_isFrame (fn : String) (app : List (String × Json)) (px : String) :
    IsFrame (fun st => ConfigValidator.validate_source_type st fn app px) := by
  intro st
  unfold ConfigValidator.validate_source_type
  rcases hv : (objGet app "source_type").getD .null with _ | b | n | s | xs | kvs <;>
    simp only [hv] <;> (repeat' split) <;>
      simp_all [ConfigValidator.appendError, ConfigValidator.appendWarning]

theorem validate_checksum_isFrame (fn : String) (app : List (String × Json)) (px : String) :
    IsFrame (fun st => ConfigValidator.validate_checksum st fn app px) := by
  intro st
  unfold ConfigValidator.validate_checksum
  rcases hv : (objGet app "checksum").getD .null with _ | b | n | s | xs | kvs <;>
    simp only [hv] <;> (repeat' split) <;>
      simp_all [ConfigValidator.appendError, ConfigValidator.appendWarning]

theorem optional_field_check_isFrame (fn : String) (app : List (String × Json))
    (px : String) (fieldTy : String × PyType) :
    IsFrame (fun st => ConfigValidator.optional_field_check st fn app px fieldTy) := by
  intro st
  unfold ConfigValidator.optional_field_check
  rcases hv : objGet app fieldTy.1 with _ | v <;>
    simp only [hv] <;> (repeat' split) <;>
      simp_all [ConfigValidator.appendError, ConfigValidator.appendWarning]

theorem validate_optional_types_isFrame (fn : String) (app : List (String × Json)) (px : String) :
    IsFrame (fun st => ConfigValidator.validate_optional_types st fn app px) := by
  apply isFrame_foldl
  intro fieldTy
  exact optional_field_check_isFrame fn app px fieldTy

theorem validate_app_isFrame (reOk : String → Bool) (fn : String) (app : Json) (i : Nat) :
    IsFrame (fun st => ConfigValidator.validate_app reOk st fn app i) := by
  rcases app with _ | b | n | s | xs | kvs
  case obj =>
    intro st
    unfold ConfigValidator.validate_app
    exact
      (isFrame_comp _ _
        (isFrame_comp _ _
          (isFrame_comp _ _
            (isFrame_comp _ _
              (isFrame_comp _ _
                (isFrame_comp _ _
                  (isFrame_comp _ _
                    (validate_required_isFrame fn kvs _)
                    (validate_name_isFrame fn kvs _))
                  (validate_url_isFrame fn kvs _))
                (validate_pattern_isFrame reOk fn kvs _))
              (validate_paths_isFrame fn kvs _))
            (validate_source_type_isFrame fn kvs _))
          (validate_checksum_isFrame fn kvs _))
        (validate_optional_types_isFrame fn kvs _)) st
  all_goals
    intro st
    unfold ConfigValidator.validate_app
    exact isFrame_appendError _ st

theorem validate_apps_loop_isFrame (reOk : String → Bool) (fn : String) :
    ∀ (xs : List Json) (i : Nat),
      IsFrame (fun st => ConfigValidator.validate_apps_loop reOk st fn xs i) := by
  intro xs
  induction xs with
  | nil =>
    intro i st
    constructor <;> simp [ConfigValidator.validate_apps_loop]
  | cons app rest ih =>
    intro i st
    have hc := isFrame_comp
      (fun st => ConfigValidator.validate_app reOk st fn app i)
      (fun st => ConfigValidator.validate_apps_loop reOk st fn rest (i + 1))
      (validate_app_isFrame reOk fn app i) (ih (i + 1))
    simpa [ConfigValidator.validate_apps_loop] using hc st

theorem schema_check_isFrame (schema : Option (Json → List SchemaViolation))
    (fn : String) (config : Json) :
    IsFrame (fun st => ConfigValidator.schema_check schema st fn config) := by
  intro st
  unfold ConfigValidator.schema_check
  rcases schema with _ | sv
  · constructor <;> simp
  · rcases hv : jsonschemaValidate (sv config) with _ | v <;> simp only [hv] <;>
      constructor <;> simp [ConfigValidator.appendError]

theorem schema_check_warnings (schema : Option (Json → List SchemaViolation))
    (st : ConfigValidator) (fn : String) (config : Json) :
    (ConfigValidator.schema_check schema st fn config).warnings = st.warnings := by
  unfold ConfigValidator.schema_check
  rcases schema with _ | sv
  · rfl
  · rcases hv : jsonschemaValidate (sv config) with _ | v <;>
      simp [hv, ConfigValidator.appendError]

theorem list_append_eq_self_iff {α : Type} (l d : List α) : (l ++ d = l) ↔ d = [] := by
  constructor
  · intro h
    have hlen := congrArg List.length h
    simp only [List.length_append] at hlen
    exact List.eq_nil_of_length_eq_zero (by omega)
  · intro h
    simp [h]

theorem nat_beq_shift (n m : Nat) : ((n + m == n) = (m == 0)) := by
  rw [Bool.eq_iff_iff]
  simp only [beq_iff_eq]
  omega

theorem errors_append_ne (l d : List ValidationError) (h : d ≠ []) : l ++ d ≠ l := by
  intro hcontra
  exact h ((list_append_eq_self_iff l d).mp hcontra)

theorem filename_check_spec (st2d st2f st : ConfigValidator) (fn : String) (a : Json) (n : Nat)
    (hE : st2d.errors = st.errors ++ st2f.errors)
    (hW : st2d.warnings = st.warnings ++ st2f.warnings)
    (hn : n = st.errors.length) :
    (ConfigValidator.filename_check st2d fn a n).1 =
      (ConfigValidator.filename_check st2f fn a 0).1 ∧
    (ConfigValidator.filename_check st2d fn a n).2.errors =
      st.errors ++ (ConfigValidator.filename_check st2f fn a 0).2.errors ∧
    (ConfigValidator.filename_check st2d fn a n).2.warnings =
      st.warnings ++ (ConfigValidator.filename_check st2f fn a 0).2.warnings ∧
    (∀ b, (ConfigValidator.filename_check st2d fn a n).1 = .ok b →
      (b = true ↔ (ConfigValidator.filename_check st2d fn a n).2.errors = st.errors)) := by
  subst hn
  have hverdict : (st2d.errors.length == st.errors.length) = (st2f.errors.length == 0) := by
    rw [hE, List.length_append]
    exact nat_beq_shift st.errors.length st2f.errors.length
  have hiff : ∀ b : Bool, b = (st2d.errors.length == st.errors.length) →
      (b = true ↔ st2d.errors = st.errors) := by
    intro b hb
    subst hb
    rw [hverdict, hE]
    constructor
    · intro h
      have h0 : st2f.errors.length = 0 := by simpa using h
      have : st2f.errors = [] := List.eq_nil_of_length_eq_zero h0
      simp [this]
    · intro h
      have : st2f.errors = [] := (list_append_eq_self_iff _ _).mp h
      simp [this]
  unfold ConfigValidator.filename_check
  rcases a with _ | ab | an | as | axs | kvs0
  case obj =>
    rcases hnm : (objGet kvs0 "name").getD (.str "") with _ | nb | nn | ns | nxs | nkvs <;>
      simp only [hnm]
    case str =>
      by_cases hm : (pyLower fn == pyLower (pyLower ns ++ ".json")) = true
      · simp only [hm, if_pos]
        refine ⟨hverdict ▸ rfl, hE, hW, ?_⟩
        · intro b hb
          have hb2 : b = (st2d.errors.length == st.errors.length) := by
            simpa using hb.symm
          exact hiff b hb2
      · simp only [Bool.not_eq_true] at hm
        simp only [hm, Bool.false_eq_true, if_false, ConfigValidator.appendWarning]
        refine ⟨hverdict ▸ rfl, hE, ?_, ?_⟩
        · simp [hW]
        · intro b hb
          have hb2 : b = (st2d.errors.length == st.errors.length) := by
            simpa using hb.symm
          exact hiff b hb2
    all_goals
      refine ⟨by trivial, hE, hW, ?_⟩
      intro b hb
      exact absurd hb (by simp)
  all_goals
    refine ⟨by trivial, hE, hW, ?_⟩
    intro b hb
    exact absurd hb (by simp)

theorem validate_file_spec (reOk : String → Bool) (schema : Option (Json → List SchemaViolation))
    (f : ConfigFile) (st : ConfigValidator) :
    (ConfigValidator.validate_file reOk schema st f).1 =
      (ConfigValidator.validate_file reOk schema ⟨[], []⟩ f).1 ∧
    (ConfigValidator.validate_file reOk schema st f).2.errors =
      st.errors ++ (ConfigValidator.validate_file reOk schema ⟨[], []⟩ f).2.errors ∧
    (ConfigValidator.validate_file reOk schema st f).2.warnings =
      st.warnings ++ (ConfigValidator.validate_file reOk schema ⟨[], []⟩ f).2.warnings ∧
    (∀ b, (ConfigValidator.validate_file reOk schema st f).1 = .ok b →
      (b = true ↔ (ConfigValidator.validate_file reOk schema st f).2.errors = st.errors)) := by
  obtain ⟨fn, cont, fread⟩ := f
  cases fread with
  | jsonError e =>
    simp only [ConfigValidator.validate_file]
    refine ⟨by trivial, by simp [ConfigValidator.appendError], by simp [ConfigValidator.appendError], ?_⟩
    intro b hb
    have hb2 : b = false := by simpa using hb.symm
    subst hb2
    simp only [Bool.false_eq_true, false_iff, ConfigValidator.appendError]
    exact errors_append_ne _ _ (by simp)
  | osError e =>
    simp only [ConfigValidator.validate_file]
    refine ⟨by trivial, by simp [ConfigValidator.appendError], by simp [ConfigValidator.appendError], ?_⟩
    intro b hb
    have hb2 : b = false := by simpa using hb.symm
    subst hb2
    simp only [Bool.false_eq_true, false_iff, ConfigValidator.appendError]
    exact errors_append_ne _ _ (by simp)
  | parsed config =>
    obtain ⟨h1e, h1w⟩ := schema_check_isFrame schema fn config st
    have h1wD : (ConfigValidator.schema_check schema st fn config).warnings = st.warnings :=
      schema_check_warnings schema st fn config
    have h1wF : (ConfigValidator.schema_check schema ⟨[], []⟩ fn config).warnings = [] :=
      schema_check_warnings schema ⟨[], []⟩ fn config
    simp only [ConfigValidator.validate_file]
    rcases hc : pyContains config "applications" with e | hasApps <;> simp only [hc]
    · refine ⟨by trivial, h1e, by rw [h1wD, h1wF]; simp, ?_⟩
      intro b hb
      exact absurd hb (by simp)
    · cases hasApps with
      | false =>
        simp only [Bool.not_false, if_true, ConfigValidator.appendError]
        refine ⟨by trivial, by simp [h1e], by simp [h1wD, h1wF], ?_⟩
        intro b hb
        have hb2 : b = false := by simpa using hb.symm
        subst hb2
        simp only [Bool.false_eq_true, false_iff]
        intro hcontra
        rw [h1e, List.append_assoc] at hcontra
        exact errors_append_ne _ _ (by simp) hcontra
      | true =>
        simp only [Bool.not_true, Bool.false_eq_true, if_false]
        rcases hs : pySubscript config "applications" with e | apps <;> simp only [hs]
        · refine ⟨by trivial, h1e, by rw [h1wD, h1wF]; simp, ?_⟩
          intro b hb
          exact absurd hb (by simp)
        · rcases apps with _ | ab | an | as | xs | akvs

          case arr =>
            rcases xs with _ | ⟨a, t⟩
            · simp only [List.isEmpty_nil, if_true, ConfigValidator.appendError]
              refine ⟨by trivial, by simp [h1e], by simp [h1wD, h1wF], ?_⟩
              intro b hb
              have hb2 : b = false := by simpa using hb.symm
              subst hb2
              simp only [Bool.false_eq_true, false_iff]
              intro hcontra
              rw [h1e, List.append_assoc] at hcontra
              exact errors_append_ne _ _ (by simp) hcontra
            · simp only [List.isEmpty_cons, Bool.false_eq_true, if_false, List.head?_cons]
              obtain ⟨hLeD, hLwD⟩ :=
                validate_apps_loop_isFrame reOk fn (a :: t) 0
                  (ConfigValidator.schema_check schema st fn config)
              obtain ⟨hLeF, hLwF⟩ :=
                validate_apps_loop_isFrame reOk fn (a :: t) 0
                  (ConfigValidator.schema_check schema ⟨[], []⟩ fn config)
              apply filename_check_spec
              · rw [hLeD, hLeF, h1e, List.append_assoc]
              · rw [hLwD, hLwF, h1wD, h1wF]
                simp
              · rfl
          all_goals
            simp only [ConfigValidator.appendError]
            refine ⟨by trivial, by simp [h1e], by simp [h1wD, h1wF], ?_⟩
            intro b hb
            have hb2 : b = false := by simpa using hb.symm
            subst hb2
            simp only [Bool.false_eq_true, false_iff]
            intro hcontra
            rw [h1e, List.append_assoc] at hcontra
            exact errors_append_ne _ _ (by simp) hcontra

theorem objHasKey_iff (kvs : List (String × Json)) (k : String) :
    objHasKey kvs k = true ↔ ∃ v, objGet kvs k = some v := by
  unfold objHasKey objGet
  rw [List.any_eq_true]
  constructor
  · intro ⟨p, hp, hk⟩
    have : (List.find? (fun p => p.1 == k) kvs).isSome = true := by
      rw [List.find?_isSome]
      exact ⟨p, hp, hk⟩
    obtain ⟨q, hq⟩ := Option.isSome_iff_exists.mp this
    exact ⟨q.2, by rw [hq]; rfl⟩
  · intro ⟨v, hv⟩
    rcases hf : List.find? (fun p => p.1 == k) kvs with _ | q
    · rw [hf] at hv
      simp at hv
    · have hq := List.find?_some hf
      exact ⟨q, List.mem_of_find?_eq_some hf, hq⟩

theorem filename_check_errors (st : ConfigValidator) (fn : String) (a : Json) (n : Nat) :
    (ConfigValidator.filename_check st fn a n).2.errors = st.errors := by
  unfold ConfigValidator.filename_check
  rcases a with _ | ab | an | as | axs | kvs0 <;> try rfl
  rcases hnm : (objGet kvs0 "name").getD (.str "") with _ | nb | nn | ns | nxs | nkvs <;>
    simp only [hnm] <;> try rfl
  split <;> simp [ConfigValidator.appendWarning]

theorem validate_required_nil (fn : String) (kvs : List (String × Json)) (px : String)
    (h : (ConfigValidator.validate_required ⟨[], []⟩ fn kvs px).errors = []) :
    ∃ v, objGet kvs "name" = some v ∧ v ≠ .null ∧ v ≠ .str "" := by
  unfold ConfigValidator.validate_required REQUIRED_APP_FIELDS at h
  rw [List.foldl_cons] at h
  obtain ⟨hre, _⟩ :=
    isFrame_foldl _ (fun field => required_field_check_isFrame fn kvs px field)
      ["url", "download_dir", "pattern"]
      (ConfigValidator.required_field_check ⟨[], []⟩ fn kvs px "name")
  rw [hre] at h
  have h1 : (ConfigValidator.required_field_check ⟨[], []⟩ fn kvs px "name").errors = [] :=
    (List.append_eq_nil.mp h).1
  unfold ConfigValidator.required_field_check at h1
  rcases hk : objHasKey kvs "name" with _ | _
  · rw [hk] at h1
    simp [ConfigValidator.appendError] at h1
  · obtain ⟨v, hv⟩ := (objHasKey_iff kvs "name").mp hk
    rw [hk, hv] at h1
    refine ⟨v, hv, ?_, ?_⟩
    · intro hcontra
      subst hcontra
      simp [ConfigValidator.appendError] at h1
    · intro hcontra
      subst hcontra
      simp [ConfigValidator.appendError] at h1

theorem validate_app_fresh_required_nil (reOk : String → Bool) (fn : String)
    (kvs0 : List (String × Json)) (i : Nat)
    (h : (ConfigValidator.validate_app reOk ⟨[], []⟩ fn (.obj kvs0) i).errors = []) :
    (ConfigValidator.validate_required ⟨[], []⟩ fn kvs0
      ("applications[" ++ toString i ++ "]")).errors = [] := by
  unfold ConfigValidator.validate_app at h
  rw [((validate_optional_types_isFrame fn kvs0 _) _).1] at h
  have h7 := (List.append_eq_nil.mp h).1
  rw [((validate_checksum_isFrame fn kvs0 _) _).1] at h7
  have h6 := (List.append_eq_nil.mp h7).1
  rw [((validate_source_type_isFrame fn kvs0 _) _).1] at h6
  have h5 := (List.append_eq_nil.mp h6).1
  rw [((validate_paths_isFrame fn kvs0 _) _).1] at h5
  have h4 := (List.append_eq_nil.mp h5).1
  rw [((validate_pattern_isFrame reOk fn kvs0 _) _).1] at h4
  have h3 := (List.append_eq_nil.mp h4).1
  rw [((validate_url_isFrame fn kvs0 _) _).1] at h3
  have h2 := (List.append_eq_nil.mp h3).1
  rw [((validate_name_isFrame fn kvs0 _) _).1] at h2
  have h1 := (List.append_eq_nil.mp h2).1
  exact h1

theorem except_bind_ok {ε α β : Type} (a : α) (f : α → Except ε β) :
    ((Except.ok a : Except ε α) >>= f) = f a := rfl

theorem except_pure_eq {ε α : Type} (a : α) : (pure a : Except ε α) = .ok a := rfl

theorem validate_true_extract (reOk : String → Bool)
    (schema : Option (Json → List SchemaViolation)) (f : ConfigFile)
    (h : (ConfigValidator.validate_file reOk schema ⟨[], []⟩ f).1 = .ok true) :
    ∃ s : String, s ≠ "" ∧ extract_app_name f = .ok (some (.str s)) := by
  obtain ⟨fn, cont, fread⟩ := f
  have herr :
      (ConfigValidator.validate_file reOk schema ⟨[], []⟩ ⟨fn, cont, fread⟩).2.errors = [] := by
    have hspec := validate_file_spec reOk schema ⟨fn, cont, fread⟩ ⟨[], []⟩
    exact (hspec.2.2.2 true h).mp rfl
  cases fread with
  | jsonError e => simp [ConfigValidator.validate_file] at h
  | osError e => simp [ConfigValidator.validate_file] at h
  | parsed config =>
    simp only [ConfigValidator.validate_file] at h herr
    rcases hc : pyContains config "applications" with e | hasApps <;> simp only [hc] at h herr
    · exact absurd h (by simp)
    · cases hasApps with
      | false => simp at h
      | true =>
        simp only [Bool.not_true, Bool.false_eq_true, if_false] at h herr
        rcases hsub : pySubscript config "applications" with e | apps <;>
          simp only [hsub] at h herr
        · exact absurd h (by simp)
        · cases apps with
          | null => simp at h
          | bool ab => simp at h
          | num an => simp at h
          | str as => simp at h
          | obj akvs => simp at h
          | arr xs =>
            cases xs with
            | nil => simp at h
            | cons a t =>
              simp only [List.isEmpty_cons, Bool.false_eq_true, if_false,
                List.head?_cons] at h herr
              cases config with
              | null => simp [pySubscript] at hsub
              | bool cb => simp [pySubscript] at hsub
              | num cn => simp [pySubscript] at hsub
              | str cs => simp [pySubscript] at hsub
              | arr cxs => simp [pySubscript] at hsub
              | obj ckvs =>
                rcases hg : objGet ckvs "applications" with _ | w
                · simp [pySubscript, hg] at hsub
                · have hw : w = .arr (a :: t) := by simpa [pySubscript, hg] using hsub
                  subst hw
                  have hkey : objHasKey ckvs "applications" = true := by
                    simpa [pyContains] using hc
                  cases a with
                  | null => simp [ConfigValidator.filename_check] at h
                  | bool b0 => simp [ConfigValidator.filename_check] at h
                  | num n0 => simp [ConfigValidator.filename_check] at h
                  | str s0 => simp [ConfigValidator.filename_check] at h
                  | arr xs0 => simp [ConfigValidator.filename_check] at h
                  | obj kvs0 =>
                    rcases hnm : (objGet kvs0 "name").getD (.str "") with
                        _ | nb | nn | ns | nxs | nkvs
                    case null => exact absurd h (by simp [ConfigValidator.filename_check, hnm])
                    case bool => exact absurd h (by simp [ConfigValidator.filename_check, hnm])
                    case num => exact absurd h (by simp [ConfigValidator.filename_check, hnm])
                    case arr => exact absurd h (by simp [ConfigValidator.filename_check, hnm])
                    case obj => exact absurd h (by simp [ConfigValidator.filename_check, hnm])
                    rw [filename_check_errors] at herr
                    have hloopstep :
                        ConfigValidator.validate_apps_loop reOk
                          (ConfigValidator.schema_check schema ⟨[], []⟩ fn (.obj ckvs)) fn
                          ((Json.obj kvs0) :: t) 0 =
                        ConfigValidator.validate_apps_loop reOk
                          (ConfigValidator.validate_app reOk
                            (ConfigValidator.schema_check schema ⟨[], []⟩ fn (.obj ckvs))
                            fn (.obj kvs0) 0) fn t 1 := rfl
                    rw [hloopstep] at herr
                    obtain ⟨hle, _⟩ :=
                      validate_apps_loop_isFrame reOk fn t 1
                        (ConfigValidator.validate_app reOk
                          (ConfigValidator.schema_check schema ⟨[], []⟩ fn (.obj ckvs))
                          fn (.obj kvs0) 0)
                    rw [hle] at herr
                    have happ := (List.append_eq_nil.mp herr).1
                    obtain ⟨hae, _⟩ :=
                      validate_app_isFrame reOk fn (.obj kvs0) 0
                        (ConfigValidator.schema_check schema ⟨[], []⟩ fn (.obj ckvs))
                    rw [hae] at happ
                    have happF := (List.append_eq_nil.mp happ).2
                    have hreq := validate_app_fresh_required_nil reOk fn kvs0 0 happF
                    obtain ⟨v, hv, hvnull, hvne⟩ := validate_required_nil fn kvs0 _ hreq
                    have hveq : v = .str ns := by
                      rw [hv] at hnm
                      simpa using hnm
                    subst hveq
                    have hs : ns ≠ "" := fun hcon => hvne (by rw [hcon])
                    refine ⟨ns, hs, ?_⟩
                    have htl : ns.toList.isEmpty = false := by
                      rcases hl : ns.toList with _ | ⟨c, cs⟩
                      · exact absurd (str_toList_inj (hl.trans rfl)) hs
                      · rfl
                    have hpc : pyContains (Json.obj ckvs) "applications" = Except.ok true := by
                      simp [pyContains, hkey]
                    have hne : ns.data ≠ [] := fun hcon => hs (str_toList_inj (hcon.trans rfl))
                    simp [extract_app_name, hpc, hsub, except_bind_ok, except_pure_eq,
                      pyIndex0, pyGetAttrGet, hv, Json.truthy, htl, hne]

/-! ### Characterizing the build_index scan loop

`fileVerdict` is the verdict `validate_file` gives a file from a fresh
validator (by the frame lemmas, the verdict from any validator state);
`loopApps`, `loopHashes` and `loopFailed` describe the entry dict, the
collected hash list and the failure flag the scan loop produces. -/

def fileVerdict (reOk : String → Bool) (schema : Option (Json → List SchemaViolation))
    (f : ConfigFile) : Except String Bool :=
  (ConfigValidator.validate_file reOk schema ⟨[], []⟩ f).1

def fileEntry (f : ConfigFile) : Json :=
  .arr [.str ("configs/" ++ f.name), .str (compute_sha256 f.content)]

def loopApps (reOk : String → Bool) (schema : Option (Json → List SchemaViolation)) :
    List ConfigFile → PyDict → PyDict
  | [], d => d
  | f :: rest, d =>
    match fileVerdict reOk schema f with
    | .ok true =>
      match extract_app_name f with
      | .ok (some nameVal) => loopApps reOk schema rest (dictSet d nameVal (fileEntry f))
      | .ok none => loopApps reOk schema rest d
      | .error _ => d
    | .ok false => loopApps reOk schema rest d
    | .error _ => d

def loopHashes (reOk : String → Bool) (schema : Option (Json → List SchemaViolation)) :
    List ConfigFile → List String
  | [] => []
  | f :: rest =>
    match fileVerdict reOk schema f with
    | .ok true =>
      match extract_app_name f with
      | .ok (some _) => compute_sha256 f.content :: loopHashes reOk schema rest
      | _ => loopHashes reOk schema rest
    | _ => loopHashes reOk schema rest

def loopFailed (reOk : String → Bool) (schema : Option (Json → List SchemaViolation))
    (files : List ConfigFile) : Bool :=
  files.any (fun f =>
    match fileVerdict reOk schema f with
    | .ok false => true
    | _ => false)

theorem build_index_loop_ok (reOk : String → Bool)
    (schema : Option (Json → List SchemaViolation)) :
    ∀ (files : List ConfigFile) (acc : BuildAcc) (st : ConfigValidator)
      (acc1 : BuildAcc) (st1 : ConfigValidator),
      build_index_loop reOk schema files acc st = (.ok acc1, st1) →
      acc1.apps = loopApps reOk schema files acc.apps ∧
      acc1.config_hashes = acc.config_hashes ++ loopHashes reOk schema files ∧
      acc1.validation_failed = (acc.validation_failed || loopFailed reOk schema files) := by
  intro files
  induction files with
  | nil =>
    intro acc st acc1 st1 h
    simp only [build_index_loop] at h
    injection h with h1 h2
    injection h1 with h1
    subst h1
    simp [loopApps, loopHashes, loopFailed]
  | cons f rest ih =>
    intro acc st acc1 st1 h
    have hv1 : (ConfigValidator.validate_file reOk schema st f).1 = fileVerdict reOk schema f :=
      (validate_file_spec reOk schema f st).1
    simp only [build_index_loop] at h
    rcases hvf : ConfigValidator.validate_file reOk schema st f with ⟨r, stv⟩
    rw [hvf] at h hv1
    simp only at h hv1
    cases r with
    | error e =>
      simp only at h
      injection h with h1 h2
      exact absurd h1.symm (by simp)
    | ok b =>
      cases b with
      | false =>
        simp only at h
        obtain ⟨ha, hh, hf⟩ := ih _ _ _ _ h
        refine ⟨?_, ?_, ?_⟩
        · simp only [ha]
          simp [loopApps, ← hv1]
        · simp only [hh]
          simp [loopHashes, ← hv1]
        · simp only [hf]
          simp [loopFailed, ← hv1]
      | true =>
        rcases he : extract_app_name f with e | onv
        · rw [he] at h
          simp only at h
          injection h with h1 h2
          exact absurd h1.symm (by simp)
        · rw [he] at h
          cases onv with
          | none =>
            simp only at h
            obtain ⟨ha, hh, hf⟩ := ih _ _ _ _ h
            refine ⟨?_, ?_, ?_⟩
            · simp only [ha]
              simp [loopApps, ← hv1, he]
            · simp only [hh]
              simp [loopHashes, ← hv1, he]
            · simp only [hf]
              simp [loopFailed, ← hv1]
          | some nameVal =>
            simp only at h
            rcases hhash : nameVal.hashable with _ | _
            · rw [hhash] at h
              simp only [Bool.false_eq_true, if_false] at h
              injection h with h1 h2
              exact absurd h1.symm (by simp)
            · rw [hhash] at h
              simp only [if_true] at h
              obtain ⟨ha, hh, hf⟩ := ih _ _ _ _ h
              refine ⟨?_, ?_, ?_⟩
              · simp only [ha]
                simp [loopApps, ← hv1, he, fileEntry]
              · simp only [hh]
                simp [loopHashes, ← hv1, he, List.append_assoc]
              · simp only [hf]
                simp [loopFailed, ← hv1]

theorem build_index_loop_total (reOk : String → Bool)
    (schema : Option (Json → List SchemaViolation)) :
    ∀ (files : List ConfigFile) (acc : BuildAcc) (st : ConfigValidator),
      (∀ f ∈ files, ∃ b, fileVerdict reOk schema f = .ok b) →
      ∃ acc1 st1, build_index_loop reOk schema files acc st = (.ok acc1, st1) := by
  intro files
  induction files with
  | nil =>
    intro acc st _
    exact ⟨acc, st, rfl⟩
  | cons f rest ih =>
    intro acc st h
    obtain ⟨b, hb⟩ := h f (by simp)
    have hv1 : (ConfigValidator.validate_file reOk schema st f).1 = fileVerdict reOk schema f :=
      (validate_file_spec reOk schema f st).1
    rcases hvf : ConfigValidator.validate_file reOk schema st f with ⟨r, stv⟩
    rw [hvf] at hv1
    simp only at hv1
    have hr : r = .ok b := by rw [hv1, hb]
    subst hr
    have hrest : ∀ g ∈ rest, ∃ b, fileVerdict reOk schema g = .ok b :=
      fun g hg => h g (by simp [hg])
    cases b with
    | false =>
      obtain ⟨acc1, st1, hres⟩ := ih { acc with validation_failed := true } stv hrest
      exact ⟨acc1, st1, by simp only [build_index_loop, hvf]; exact hres⟩
    | true =>
      obtain ⟨s, hs, he⟩ := validate_true_extract reOk schema f hb
      obtain ⟨acc1, st1, hres⟩ :=
        ih { acc with
              apps := dictSet acc.apps (.str s) (fileEntry f),
              config_hashes := acc.config_hashes ++ [compute_sha256 f.content] } stv hrest
      refine ⟨acc1, st1, ?_⟩
      simp only [build_index_loop, hvf, he, Json.hashable, if_true, fileEntry]
      exact hres

/-! ### Python dict lookups with string keys -/

theorem keyEq_str_iff (x : Json) (s : String) : Json.keyEq x (.str s) = true ↔ x = .str s := by
  cases x <;> simp [Json.keyEq]

theorem dictHasKey_iff_find (d : PyDict) (k : Json) :
    dictHasKey d k = true ↔ (List.find? (fun p => Json.keyEq p.1 k) d).isSome = true := by
  unfold dictHasKey
  rw [List.any_eq_true, List.find?_isSome]

theorem setEntry_key_comp (s n : String) (v : Json) :
    ((fun p : Json × Json => Json.keyEq p.1 (.str n)) ∘
      (fun p : Json × Json => if Json.keyEq p.1 (.str s) = true then (p.1, v) else p)) =
    fun p : Json × Json => Json.keyEq p.1 (.str n) := by
  funext q
  by_cases hqs : Json.keyEq q.1 (.str s) = true <;> simp [hqs]

theorem dictGet_dictSet_str_self (d : PyDict) (s : String) (v : Json) :
    dictGet (dictSet d (.str s) v) (.str s) = some v := by
  unfold dictSet dictGet
  by_cases hk : dictHasKey d (.str s) = true
  · rw [if_pos hk, List.find?_map, setEntry_key_comp]
    have hsome := (dictHasKey_iff_find d (.str s)).mp hk
    obtain ⟨q, hq⟩ := Option.isSome_iff_exists.mp hsome
    have hqk := List.find?_some hq
    rw [hq]
    simp only [Option.map_map, Option.map_some]
    simp [Function.comp, hqk]
  · rw [if_neg hk]
    have hnone : List.find? (fun p => Json.keyEq p.1 (.str s)) d = none := by
      rcases hf : List.find? (fun p => Json.keyEq p.1 (.str s)) d with _ | q
      · exact hf
      · exact absurd ((dictHasKey_iff_find d (.str s)).mpr (by simp [hf])) hk
    rw [List.find?_append, hnone]
    simp [Json.keyEq]

theorem dictGet_dictSet_str_ne (d : PyDict) (s n : String) (v : Json) (h : (s == n) = false) :
    dictGet (dictSet d (.str s) v) (.str n) = dictGet d (.str n) := by
  unfold dictSet dictGet
  by_cases hk : dictHasKey d (.str s) = true
  · rw [if_pos hk, List.find?_map, setEntry_key_comp]
    rcases hf : List.find? (fun p => Json.keyEq p.1 (.str n)) d with _ | q
    · rw [hf]
      simp
    · have hqk := List.find?_some hf
      have hqn : q.1 = .str n := (keyEq_str_iff _ _).mp hqk
      have hqs : Json.keyEq q.1 (.str s) = false := by
        rw [hqn]
        simpa [Json.keyEq, BEq.comm] using h
      rw [hf]
      simp [hqs]
  · rw [if_neg hk, List.find?_append]
    rcases hf : List.find? (fun p => Json.keyEq p.1 (.str n)) d with _ | q <;>
      simp [Json.keyEq, BEq.comm, h]

/-! ### Lookups through the final dict literal and the scan loop -/

/-- Value of the last entry of `entries` whose key is `k` (the one a
left-to-right sequence of `dictSet`s leaves in place). -/
def lastKey (k : Json) : PyDict → Option Json
  | [] => none
  | p :: rest =>
    match lastKey k rest with
    | some v => some v
    | none => if Json.keyEq p.1 k then some p.2 else none

theorem dictGet_foldl_set_str (n : String) :
    ∀ (entries : PyDict), (∀ p ∈ entries, ∃ sp, p.1 = Json.str sp) → ∀ (d : PyDict),
      dictGet (entries.foldl (fun d p => dictSet d p.1 p.2) d) (.str n) =
        match lastKey (.str n) entries with
        | some v => some v
        | none => dictGet d (.str n) := by
  intro entries
  induction entries with
  | nil => intro _ d; simp [lastKey]
  | cons p rest ih =>
    intro hstr d
    obtain ⟨sp, hsp⟩ := hstr p (by simp)
    have hrest : ∀ q ∈ rest, ∃ sq, q.1 = Json.str sq := fun q hq => hstr q (by simp [hq])
    rw [List.foldl_cons, ih hrest]
    by_cases hsn : (sp == n) = true
    · have hspn : sp = n := by simpa using hsn
      subst hspn
      rw [hsp, dictGet_dictSet_str_self]
      rcases hlast : lastKey (.str sp) rest with _ | w <;>
        simp [lastKey, hlast, hsp, Json.keyEq]
    · have hne : (sp == n) = false := by simpa using hsn
      rw [hsp, dictGet_dictSet_str_ne _ _ _ _ hne]
      rcases hlast : lastKey (.str n) rest with _ | w <;>
        simp [lastKey, hlast, hsp, Json.keyEq, hne]

/-- The file whose entry survives for name `n`: the last file of the scan
that validates and resolves to `n`. -/
def resolvesTo (reOk : String → Bool) (schema : Option (Json → List SchemaViolation))
    (f : ConfigFile) (n : String) : Bool :=
  match fileVerdict reOk schema f, extract_app_name f with
  | .ok true, .ok (some (.str s)) => s == n
  | _, _ => false

def lastResolve (reOk : String → Bool) (schema : Option (Json → List SchemaViolation))
    (n : String) : List ConfigFile → Option ConfigFile
  | [] => none
  | f :: rest =>
    match lastResolve reOk schema n rest with
    | some g => some g
    | none => if resolvesTo reOk schema f n then some f else none

theorem dictGet_loopApps (reOk : String → Bool)
    (schema : Option (Json → List SchemaViolation)) (n : String) :
    ∀ (files : List ConfigFile),
      (∀ f ∈ files, ∃ b, fileVerdict reOk schema f = .ok b) → ∀ (d : PyDict),
      dictGet (loopApps reOk schema files d) (.str n) =
        match lastResolve reOk schema n files with
        | some g => some (fileEntry g)
        | none => dictGet d (.str n) := by
  intro files
  induction files with
  | nil => intro _ d; simp [loopApps, lastResolve]
  | cons f rest ih =>
    intro hterm d
    obtain ⟨b, hb⟩ := hterm f (by simp)
    have hrest : ∀ g ∈ rest, ∃ b, fileVerdict reOk schema g = .ok b :=
      fun g hg => hterm g (by simp [hg])
    cases b with
    | false =>
      have hres : resolvesTo reOk schema f n = false := by
        simp [resolvesTo, hb]
      simp only [loopApps, hb]
      rw [ih hrest d]
      rcases hlast : lastResolve reOk schema n rest with _ | g <;>
        simp [lastResolve, hlast, hres]
    | true =>
      obtain ⟨s, hs, he⟩ := validate_true_extract reOk schema f hb
      simp only [loopApps, hb, he]
      rw [ih hrest]
      by_cases hsn : (s == n) = true
      · have hspn : s = n := by simpa using hsn
        subst hspn
        have hres : resolvesTo reOk schema f s = true := by
          simp [resolvesTo, hb, he]
        rw [dictGet_dictSet_str_self]
        rcases hlast : lastResolve reOk schema s rest with _ | g <;>
          simp [lastResolve, hlast, hres]
      · have hne : (s == n) = false := by simpa using hsn
        have hres : resolvesTo reOk schema f n = false := by
          simp [resolvesTo, hb, he, hne]
        rw [dictGet_dictSet_str_ne _ _ _ _ hne]
        rcases hlast : lastResolve reOk schema n rest with _ | g <;>
          simp [lastResolve, hlast, hres]

theorem lastResolve_none (reOk : String → Bool)
    (schema : Option (Json → List SchemaViolation)) (n : String) :
    ∀ (l : List ConfigFile), (∀ g ∈ l, resolvesTo reOk schema g n = false) →
      lastResolve reOk schema n l = none := by
  intro l
  induction l with
  | nil => intro _; rfl
  | cons f rest ih =>
    intro h
    have hrest := ih (fun g hg => h g (by simp [hg]))
    have hf := h f (by simp)
    simp [lastResolve, hrest, hf]

theorem build_index_loop_verdicts (reOk : String → Bool)
    (schema : Option (Json → List SchemaViolation)) :
    ∀ (files : List ConfigFile) (acc : BuildAcc) (st : ConfigValidator)
      (acc1 : BuildAcc) (st1 : ConfigValidator),
      build_index_loop reOk schema files acc st = (.ok acc1, st1) →
      ∀ f ∈ files, ∃ b, fileVerdict reOk schema f = .ok b := by
  intro files
  induction files with
  | nil => intro acc st acc1 st1 _ f hf; simp at hf
  | cons f rest ih =>
    intro acc st acc1 st1 h g hg
    have hv1 : (ConfigValidator.validate_file reOk schema st f).1 = fileVerdict reOk schema f :=
      (validate_file_spec reOk schema f st).1
    simp only [build_index_loop] at h
    rcases hvf : ConfigValidator.validate_file reOk schema st f with ⟨r, stv⟩
    rw [hvf] at h hv1
    simp only at h hv1
    cases r with
    | error e =>
      simp only at h
      injection h with h1 h2
      exact absurd h1.symm (by simp)
    | ok b =>
      rcases List.mem_cons.mp hg with hgf | hgr
      · subst hgf
        exact ⟨b, hv1.symm⟩
      · cases b with
        | false =>
          simp only at h
          exact ih _ _ _ _ h g hgr
        | true =>
          rcases he : extract_app_name f with e | onv
          · rw [he] at h
            simp only at h
            injection h with h1 h2
            exact absurd h1.symm (by simp)
          · rw [he] at h
            cases onv with
            | none =>
              simp only at h
              exact ih _ _ _ _ h g hgr
            | some nameVal =>
              simp only at h
              rcases hhash : nameVal.hashable with _ | _
              · rw [hhash] at h
                simp only [Bool.false_eq_true, if_false] at h
                injection h with h1 h2
                exact absurd h1.symm (by simp)
              · rw [hhash] at h
                simp only [if_true] at h
                exact ih _ _ _ _ h g hgr

theorem build_index_some (reOk : String → Bool)
    (schema : Option (Json → List SchemaViolation)) (files : List ConfigFile)
    (now : String) (idx : PyDict)
    (h : (build_index reOk schema (some files) now ⟨[], []⟩).1 = .ok (some idx)) :
    idx = assembleIndex (loopApps reOk schema (sortFiles files) [])
            (loopHashes reOk schema (sortFiles files)) now ∧
    (∀ f ∈ sortFiles files, ∃ b, fileVerdict reOk schema f = .ok b) := by
  unfold build_index at h
  simp only at h
  rcases hl : build_index_loop reOk schema (sortFiles files) ⟨[], [], false⟩ ⟨[], []⟩
      with ⟨r, stl⟩
  rw [hl] at h
  cases r with
  | error e => exact absurd h (by simp)
  | ok acc1 =>
    obtain ⟨ha, hh, hf⟩ := build_index_loop_ok reOk schema _ _ _ _ _ hl
    have hverd := build_index_loop_verdicts reOk schema _ _ _ _ _ hl
    simp only at h
    rcases hfail : acc1.validation_failed with _ | _
    · rw [hfail] at h
      simp only [Bool.false_eq_true, if_false] at h
      rcases hemp : acc1.apps.isEmpty with _ | _
      · rw [hemp] at h
        simp only [Bool.false_eq_true, if_false] at h
        have hidx : idx = assembleIndex acc1.apps acc1.config_hashes now := by
          injection h with h1
          injection h1 with h1
          exact h1.symm
        refine ⟨?_, hverd⟩
        rw [hidx, ha, hh]
        simp
      · rw [hemp] at h
        simp at h
    · rw [hfail] at h
      simp at h

/-! ### Key-shape invariants of the entry dict -/

def StrNodupKeys (d : PyDict) : Prop :=
  (∀ p ∈ d, ∃ t, p.1 = Json.str t) ∧ (d.map Prod.fst).Nodup

theorem dictSet_strNodup (d : PyDict) (s : String) (v : Json) (h : StrNodupKeys d) :
    StrNodupKeys (dictSet d (.str s) v) := by
  obtain ⟨hstr, hnodup⟩ := h
  unfold dictSet
  by_cases hk : dictHasKey d (.str s) = true
  · rw [if_pos hk]
    constructor
    · intro p hp
      obtain ⟨q, hq, hqe⟩ := List.mem_map.mp hp
      obtain ⟨t, ht⟩ := hstr q hq
      by_cases hqs : Json.keyEq q.1 (.str s) = true <;>
        simp only [hqs, if_true, Bool.false_eq_true, if_false] at hqe <;> subst hqe
      · exact ⟨t, ht⟩
      · exact ⟨t, ht⟩
    · have hkeys : (List.map (fun p => if Json.keyEq p.1 (.str s) = true then (p.1, v) else p) d).map
          Prod.fst = d.map Prod.fst := by
        rw [List.map_map]
        apply List.map_congr_left
        intro q _
        by_cases hqs : Json.keyEq q.1 (.str s) = true <;> simp [hqs]
      rw [hkeys]
      exact hnodup
  · rw [if_neg hk]
    constructor
    · intro p hp
      rcases List.mem_append.mp hp with hp1 | hp1
      · exact hstr p hp1
      · simp at hp1
        subst hp1
        exact ⟨s, rfl⟩
    · rw [List.map_append]
      simp only [List.map_cons, List.map_nil]
      apply List.Nodup.append hnodup (by simp)
      intro x hx hx2
      simp at hx2
      subst hx2
      obtain ⟨p, hp, hpe⟩ := List.mem_map.mp hx
      apply absurd _ hk
      unfold dictHasKey
      rw [List.any_eq_true]
      refine ⟨p, hp, ?_⟩
      rw [hpe]
      simp [Json.keyEq]

theorem loopApps_strNodup (reOk : String → Bool)
    (schema : Option (Json → List SchemaViolation)) :
    ∀ (files : List ConfigFile), (∀ f ∈ files, ∃ b, fileVerdict reOk schema f = .ok b) →
      ∀ (d : PyDict), StrNodupKeys d → StrNodupKeys (loopApps reOk schema files d) := by
  intro files
  induction files with
  | nil => intro _ d hd; exact hd
  | cons f rest ih =>
    intro hterm d hd
    obtain ⟨b, hb⟩ := hterm f (by simp)
    have hrest : ∀ g ∈ rest, ∃ b, fileVerdict reOk schema g = .ok b :=
      fun g hg => hterm g (by simp [hg])
    cases b with
    | false =>
      simp only [loopApps, hb]
      exact ih hrest d hd
    | true =>
      obtain ⟨s, _, he⟩ := validate_true_extract reOk schema f hb
      simp only [loopApps, hb, he]
      exact ih hrest _ (dictSet_strNodup d s (fileEntry f) hd)

theorem dictGet_none_of_no_key (d : PyDict) (n : String)
    (h : ∀ q ∈ d, Json.keyEq q.1 (.str n) = false) : dictGet d (.str n) = none := by
  unfold dictGet
  rw [List.find?_eq_none.mpr (fun x hx => by simp [h x hx])]
  rfl

theorem lastKey_eq_dictGet (n : String) :
    ∀ (d : PyDict), StrNodupKeys d → lastKey (.str n) d = dictGet d (.str n) := by
  intro d
  induction d with
  | nil => intro _; rfl
  | cons p rest ih =>
    intro hd
    obtain ⟨hstr, hnodup⟩ := hd
    obtain ⟨sp, hsp⟩ := hstr p (by simp)
    have hdrest : StrNodupKeys rest :=
      ⟨fun q hq => hstr q (by simp [hq]), (List.nodup_cons.mp hnodup).2⟩
    have hih := ih hdrest
    by_cases hsn : (sp == n) = true
    · have hspn : sp = n := by simpa using hsn
      subst hspn
      have hnk : ∀ q ∈ rest, Json.keyEq q.1 (.str sp) = false := by
        intro q hq
        obtain ⟨tq, htq⟩ := hstr q (by simp [hq])
        rcases hr : Json.keyEq q.1 (.str sp) with _ | _
        · rfl
        · exfalso
          have hq1 : q.1 = .str sp := (keyEq_str_iff _ _).mp hr
          have : p.1 ∈ rest.map Prod.fst := by
            rw [hsp, ← hq1]
            exact List.mem_map_of_mem Prod.fst hq
          exact (List.nodup_cons.mp hnodup).1 this
      have hrest_none : dictGet rest (.str sp) = none := dictGet_none_of_no_key rest sp hnk
      rw [hrest_none] at hih
      simp [lastKey, hih, dictGet, List.find?_cons, hsp, Json.keyEq]
    · have hne : (sp == n) = false := by simpa using hsn
      have hkeq : Json.keyEq p.1 (.str n) = false := by
        rw [hsp]
        simpa [Json.keyEq] using hne
      have hd2 : dictGet (p :: rest) (.str n) = dictGet rest (.str n) := by
        unfold dictGet
        simp [List.find?_cons, hkeq]
      have hl2 : lastKey (.str n) (p :: rest) = lastKey (.str n) rest := by
        rcases hlast : lastKey (.str n) rest with _ | w <;> simp [lastKey, hlast, hkeq]
      rw [hl2, hd2, hih]

/-! ### Sorted order of the scan -/

theorem sortFiles_perm (files : List ConfigFile) : (sortFiles files).Perm files :=
  List.perm_insertionSort _ _

theorem sortFiles_sorted (files : List ConfigFile) :
    (sortFiles files).Pairwise (fun a b => strLe a.name b.name = true) := by
  have ht : IsTrans ConfigFile (fun a b => strLe a.name b.name = true) :=
    ⟨fun a b c h1 h2 => chLe_trans _ _ _ h1 h2⟩
  have hto : IsTotal ConfigFile (fun a b => strLe a.name b.name = true) :=
    ⟨fun a b => chLe_total _ _⟩
  exact @List.sorted_insertionSort ConfigFile _ (fun a b => instDecidableEqBool _ _) hto ht files

theorem lastResolve_eq (reOk : String → Bool)
    (schema : Option (Json → List SchemaViolation)) (n : String) :
    ∀ (l : List ConfigFile) (lastf : ConfigFile),
      l.Pairwise (fun a b => strLe a.name b.name = true) →
      (l.map ConfigFile.name).Nodup →
      lastf ∈ l → resolvesTo reOk schema lastf n = true →
      (∀ g ∈ l, resolvesTo reOk schema g n = true → strLe g.name lastf.name = true) →
      lastResolve reOk schema n l = some lastf := by
  intro l
  induction l with
  | nil => intro lastf _ _ hmem; simp at hmem
  | cons f rest ih =>
    intro lastf hsorted hnodup hmem hres hmax
    rcases List.mem_cons.mp hmem with hlf | hlf
    · subst hlf
      have hnone : ∀ g ∈ rest, resolvesTo reOk schema g n = false := by
        intro g hg
        rcases hr : resolvesTo reOk schema g n with _ | _
        · rfl
        · exfalso
          have h1 : strLe g.name lastf.name = true := hmax g (by simp [hg]) hr
          have h2 : strLe lastf.name g.name = true :=
            (List.pairwise_cons.mp hsorted).1 g hg
          have heq : lastf.name = g.name := strLe_antisymm _ _ h2 h1
          have : lastf.name ∈ rest.map ConfigFile.name := by
            rw [heq]
            exact List.mem_map_of_mem ConfigFile.name hg
          exact (List.nodup_cons.mp hnodup).1 this
      have hrnone := lastResolve_none reOk schema n rest hnone
      simp [lastResolve, hrnone, hres]
    · have hrest := ih lastf (List.pairwise_cons.mp hsorted).2 (List.nodup_cons.mp hnodup).2
        hlf hres (fun g hg hr => hmax g (by simp [hg]) hr)
      simp [lastResolve, hrest]

theorem loopHashes_mem (reOk : String → Bool)
    (schema : Option (Json → List SchemaViolation)) :
    ∀ (files : List ConfigFile) (g : ConfigFile), g ∈ files →
      fileVerdict reOk schema g = .ok true →
      ∀ v, extract_app_name g = .ok (some v) →
      compute_sha256 g.content ∈ loopHashes reOk schema files := by
  intro files
  induction files with
  | nil => intro g hg; simp at hg
  | cons f rest ih =>
    intro g hg hgv v hge
    rcases List.mem_cons.mp hg with hgf | hgr
    · subst hgf
      simp [loopHashes, hgv, hge]
    · have hmem := ih g hgr hgv v hge
      simp only [loopHashes]
      split
      · split
        · exact List.mem_cons_of_mem _ hmem
        · exact hmem
      · exact hmem

/-! ### Concrete inputs used by witnesses and counterexamples

`reOkAll` instantiates the `re.compile` collaborator: every regex
pattern occurring in the concrete inputs below is syntactically valid,
so compilation succeeds on each of them. -/

def reOkAll : String → Bool := fun _ => true

def validApp : Json :=
  .obj [("name", .str "TestApp"), ("url", .str "https://github.com/test/repo"),
        ("download_dir", .str "TestApp"), ("pattern", .str "X")]

def validFile : ConfigFile :=
  ⟨"testapp.json", [123, 125], .parsed (.obj [("applications", .arr [validApp])])⟩

theorem pyStartsWith_append (p r : String) : pyStartsWith (p ++ r) p = true := by
  unfold pyStartsWith
  rw [List.isPrefixOf_iff_prefix]
  show p.data <+: (p ++ r).data
  rw [String.data_append]
  exact List.prefix_append p.data r.data

/-- C2: `repoHash` is a pure function of the multiset of its input
hashes — permuting the input list does not change the result, which is
always a `"sha256:"`-prefixed digest string. -/
theorem compute_repo_hash_perm_invariant (l₁ l₂ : List String) (h : l₁.Perm l₂) :
    compute_repo_hash l₁ = compute_repo_hash l₂ ∧
    pyStartsWith (compute_repo_hash l₁) "sha256:" = true := by
  constructor
  · unfold compute_repo_hash
    rw [pySorted_congr_perm h]
  · exact pyStartsWith_append "sha256:" _

theorem compute_repo_hash_perm_invariant_witness :
    (["sha256:bb", "sha256:aa"] : List String).Perm ["sha256:aa", "sha256:bb"] ∧
    compute_repo_hash ["sha256:bb", "sha256:aa"] =
      compute_repo_hash ["sha256:aa", "sha256:bb"] :=
  have hp : (["sha256:bb", "sha256:aa"] : List String).Perm ["sha256:aa", "sha256:bb"] :=
    List.Perm.swap "sha256:aa" "sha256:bb" []
  ⟨hp, (compute_repo_hash_perm_invariant _ _ hp).1⟩

/-- C4: a file is reported valid exactly when its validation appended no
new errors; warnings (which go to the separate warning list) never
change the verdict, since the verdict depends only on the error list. -/
theorem validate_file_verdict_iff (reOk : String → Bool)
    (schema : Option (Json → List SchemaViolation)) (st : ConfigValidator)
    (f : ConfigFile) (b : Bool)
    (h : (ConfigValidator.validate_file reOk schema st f).1 = .ok b) :
    b = true ↔ (ConfigValidator.validate_file reOk schema st f).2.errors = st.errors :=
  (validate_file_spec reOk schema f st).2.2.2 b h

theorem validate_file_verdict_iff_witness :
    (ConfigValidator.validate_file reOkAll none ⟨[], []⟩ validFile).1 = .ok true ∧
    (true = true ↔
      (ConfigValidator.validate_file reOkAll none ⟨[], []⟩ validFile).2.errors =
        ([] : List ValidationError)) :=
  ⟨rfl, validate_file_verdict_iff reOkAll none ⟨[], []⟩ validFile true rfl⟩

/-- C10: `validate_file` only ever appends to the error and warning
lists (never removing or modifying what is already there), and its
verdict does not depend on the entries accumulated from earlier
files — it equals the verdict of a fresh validator on the same file. -/
theorem validate_file_append_only (reOk : String → Bool)
    (schema : Option (Json → List SchemaViolation)) (st : ConfigValidator)
    (f : ConfigFile) :
    (ConfigValidator.validate_file reOk schema st f).1 =
      (ConfigValidator.validate_file reOk schema ⟨[], []⟩ f).1 ∧
    (ConfigValidator.validate_file reOk schema st f).2.errors =
      st.errors ++ (ConfigValidator.validate_file reOk schema ⟨[], []⟩ f).2.errors ∧
    (ConfigValidator.validate_file reOk schema st f).2.warnings =
      st.warnings ++ (ConfigValidator.validate_file reOk schema ⟨[], []⟩ f).2.warnings :=
  ⟨(validate_file_spec reOk schema f st).1, (validate_file_spec reOk schema f st).2.1,
   (validate_file_spec reOk schema f st).2.2.1⟩

/-- A config whose first application has the non-string name `5`. -/
def name5File : ConfigFile :=
  ⟨"crash.json", [],
   .parsed (.obj [("applications", .arr
     [.obj [("name", .num 5), ("url", .str "https://x"),
            ("download_dir", .str "d"), ("pattern", .str "x")]])])⟩

/-- C6: the validator is not total — on a parsed document whose first
application name is the number `5`, the filename-convention check calls
`.lower()` on a non-string and `validate_file` raises `AttributeError`
instead of returning a verdict (the name-type error it appended a moment
earlier is never reported). -/
theorem validate_file_crash_on_non_string_name :
    (ConfigValidator.validate_file reOkAll none ⟨[], []⟩ name5File).1 =
      .error "AttributeError: value has no attribute lower" ∧
    (ConfigValidator.validate_file reOkAll none ⟨[], []⟩ name5File).2.errors =
      [⟨"crash.json", "Must be a string", some "applications[0].name"⟩] :=
  ⟨rfl, rfl⟩

/-- A config whose `url` is the number `0` (falsy in Python). -/
def url0File : ConfigFile :=
  ⟨"a.json", [],
   .parsed (.obj [("applications", .arr
     [.obj [("name", .str "A"), ("url", .num 0),
            ("download_dir", .str "d"), ("pattern", .str "x")]])])⟩

/-- C7 counterexample: a present `url` of `0` is not a string starting
with `http://` or `https://`, yet validation reports the file valid with
no errors at all — the url checks are guarded by Python truthiness, and
`0` is falsy. -/
theorem url_zero_accepted_counterexample :
    ConfigValidator.validate_file reOkAll none ⟨[], []⟩ url0File =
      (.ok true, ⟨[], []⟩) :=
  rfl

/-- C7 (amended): for every application entry whose `url` value is
truthy and is not an `http://`/`https://` string, `_validate_url`
appends exactly one error on that entry's url field (making the file
invalid); falsy present values other than `null` and `""` — such as `0`
or `false` — are accepted silently. -/
theorem validate_url_truthy_only (st : ConfigValidator) (fn px : String)
    (app : List (String × Json)) (v : Json)
    (hv : objGet app "url" = some v) (ht : v.truthy = true)
    (hbad : ∀ s, v = Json.str s →
      (pyStartsWith s "http://" || pyStartsWith s "https://") = false) :
    ∃ e, (ConfigValidator.validate_url st fn app px).errors = st.errors ++ [e] ∧
      e.field = some (px ++ ".url") := by
  unfold ConfigValidator.validate_url
  rw [hv]
  cases v with
  | null => simp [Json.truthy] at ht
  | str s =>
    have hb := hbad s rfl
    simp only [Option.getD_some, ht, Bool.not_true, Bool.false_eq_true, if_false, hb,
      ConfigValidator.appendError]
    exact ⟨_, rfl, rfl⟩
  | bool b =>
    simp only [Option.getD_some, ht, Bool.not_true, Bool.false_eq_true, if_false,
      ConfigValidator.appendError]
    exact ⟨_, rfl, rfl⟩
  | num n =>
    simp only [Option.getD_some, ht, Bool.not_true, Bool.false_eq_true, if_false,
      ConfigValidator.appendError]
    exact ⟨_, rfl, rfl⟩
  | arr xs =>
    simp only [Option.getD_some, ht, Bool.not_true, Bool.false_eq_true, if_false,
      ConfigValidator.appendError]
    exact ⟨_, rfl, rfl⟩
  | obj kvs =>
    simp only [Option.getD_some, ht, Bool.not_true, Bool.false_eq_true, if_false,
      ConfigValidator.appendError]
    exact ⟨_, rfl, rfl⟩

theorem validate_url_truthy_only_witness :
    objGet [("url", Json.num 7)] "url" = some (Json.num 7) ∧
    (Json.num 7).truthy = true ∧
    (∃ e, (ConfigValidator.validate_url ⟨[], []⟩ "f.json" [("url", Json.num 7)] "applications[0]").errors =
      ([] : List ValidationError) ++ [e] ∧ e.field = some ("applications[0]" ++ ".url")) :=
  ⟨rfl, rfl,
   validate_url_truthy_only ⟨[], []⟩ "f.json" "applications[0]" [("url", Json.num 7)]
     (Json.num 7) rfl rfl (fun s hs => Json.noConfusion hs)⟩

/-- Schema collaborator reporting two distinct violations for every
document. -/
def schemaTwo : Json → List SchemaViolation := fun _ => [⟨"m1", ["a", "b"]⟩, ⟨"m2", []⟩]

/-- C8 counterexample: with a schema under which the document violates
two distinct rules, validation appends one single error (the library's
best-match violation), not one error per violated rule. -/
theorem schema_multiplicity_counterexample :
    (ConfigValidator.validate_file reOkAll (some schemaTwo) ⟨[], []⟩ validFile).2.errors =
      [⟨"testapp.json", "m1", some "a.b"⟩] ∧
    (ConfigValidator.validate_file reOkAll (some schemaTwo) ⟨[], []⟩ validFile).2.errors.length ≠ 2 := by
  refine ⟨rfl, ?_⟩
  rw [(rfl :
    (ConfigValidator.validate_file reOkAll (some schemaTwo) ⟨[], []⟩ validFile).2.errors =
      [⟨"testapp.json", "m1", some "a.b"⟩])]
  decide

/-- C8 (amended): when a schema is supplied and the document has any
violations, the schema step appends exactly one error — carrying the
message and dotted field path of the one violation `jsonschema.validate`
raised (its best match, the head of the violation list) — regardless of
how many rules are violated. -/
theorem schema_check_single_error (sv : Json → List SchemaViolation)
    (st : ConfigValidator) (fn : String) (config : Json) (v : SchemaViolation)
    (rest : List SchemaViolation) (h : sv config = v :: rest) :
    ConfigValidator.schema_check (some sv) st fn config =
      st.appendError
        ⟨fn, v.message,
         if v.path.isEmpty then none else some (String.intercalate "." v.path)⟩ := by
  unfold ConfigValidator.schema_check jsonschemaValidate
  dsimp only
  rw [h]
  rfl

theorem schema_check_single_error_witness :
    schemaTwo Json.null = (⟨"m1", ["a", "b"]⟩ : SchemaViolation) :: [⟨"m2", []⟩] ∧
    ConfigValidator.schema_check (some schemaTwo) ⟨[], []⟩ "f.json" Json.null =
      ConfigValidator.appendError ⟨[], []⟩ ⟨"f.json", "m1", some "a.b"⟩ :=
  ⟨rfl,
   (schema_check_single_error schemaTwo ⟨[], []⟩ "f.json" Json.null
     ⟨"m1", ["a", "b"]⟩ [⟨"m2", []⟩] rfl).trans rfl⟩

/-- A config whose first application name is the number `5`, in a file
named `MyApp.json` and with no top-level `name`. -/
def cexC3File : ConfigFile :=
  ⟨"MyApp.json", [], .parsed (.obj [("applications", .arr [.obj [("name", .num 5)]])])⟩

/-- C3 counterexample: `applications[0].name` is the truthy non-string
`5`; the resolver returns it verbatim instead of falling back to the
file stem `"MyApp"`. -/
theorem extract_app_name_counterexample :
    extract_app_name cexC3File = .ok (some (.num 5)) ∧
    extract_app_name cexC3File ≠ .ok (some (.str "MyApp")) := by
  refine ⟨rfl, ?_⟩
  intro h
  rw [(rfl : extract_app_name cexC3File = .ok (some (.num 5)))] at h
  injection h with h1
  injection h1 with h2
  exact Json.noConfusion h2

/-- C3 (amended): name resolution priority on a parsed JSON object
document: (1) when `applications` is present and truthy, its first
element is an object and that object's `name` is truthy, the name value
is returned verbatim — whatever truthy JSON value it is, not only
non-empty strings; (2) otherwise (when `applications` is absent or
falsy), a truthy top-level `name` is returned; (3) otherwise the file
stem is returned. -/
theorem extract_app_name_priority (fname : String) (cont : List Nat)
    (ckvs : List (String × Json)) :
    (∀ apps first v,
      objGet ckvs "applications" = some apps → apps.truthy = true →
      pyIndex0 apps = .ok first → pyGetAttrGet first "name" = .ok v → v.truthy = true →
      extract_app_name ⟨fname, cont, .parsed (.obj ckvs)⟩ = .ok (some v)) ∧
    (((objGet ckvs "applications").getD .null).truthy = false →
      ((objGet ckvs "name").getD .null).truthy = true →
      extract_app_name ⟨fname, cont, .parsed (.obj ckvs)⟩ =
        .ok (some ((objGet ckvs "name").getD .null))) ∧
    (((objGet ckvs "applications").getD .null).truthy = false →
      ((objGet ckvs "name").getD .null).truthy = false →
      extract_app_name ⟨fname, cont, .parsed (.obj ckvs)⟩ =
        .ok (some (.str (pyStem fname)))) := by
  refine ⟨?_, ?_, ?_⟩
  · intro apps first v hg ht hi hn hv
    have hkey : objHasKey ckvs "applications" = true :=
      (objHasKey_iff ckvs "applications").mpr ⟨apps, hg⟩
    have hpc : pyContains (Json.obj ckvs) "applications" = Except.ok true := by
      simp [pyContains, hkey]
    have hps : pySubscript (Json.obj ckvs) "applications" = Except.ok apps := by
      simp [pySubscript, hg]
    simp [extract_app_name, hpc, hps, except_bind_ok, except_pure_eq, ht, hi, hn, hv]
  · intro hA hname
    rcases hg : objGet ckvs "applications" with _ | apps
    · have hkey : objHasKey ckvs "applications" = false := by
        rcases hk : objHasKey ckvs "applications" with _ | _
        · rfl
        · obtain ⟨w, hw⟩ := (objHasKey_iff ckvs "applications").mp hk
          rw [hw] at hg
          exact Option.noConfusion hg
      have hpc : pyContains (Json.obj ckvs) "applications" = Except.ok false := by
        simp [pyContains, hkey]
      simp [extract_app_name, hpc, except_bind_ok, except_pure_eq, pyGetAttrGet, hname]
    · rw [hg] at hA
      simp only [Option.getD_some] at hA
      have hkey : objHasKey ckvs "applications" = true :=
        (objHasKey_iff ckvs "applications").mpr ⟨apps, hg⟩
      have hpc : pyContains (Json.obj ckvs) "applications" = Except.ok true := by
        simp [pyContains, hkey]
      have hps : pySubscript (Json.obj ckvs) "applications" = Except.ok apps := by
        simp [pySubscript, hg]
      simp [extract_app_name, hpc, hps, except_bind_ok, except_pure_eq, hA,
        pyGetAttrGet, hname]
  · intro hA hname
    rcases hg : objGet ckvs "applications" with _ | apps
    · have hkey : objHasKey ckvs "applications" = false := by
        rcases hk : objHasKey ckvs "applications" with _ | _
        · rfl
        · obtain ⟨w, hw⟩ := (objHasKey_iff ckvs "applications").mp hk
          rw [hw] at hg
          exact Option.noConfusion hg
      have hpc : pyContains (Json.obj ckvs) "applications" = Except.ok false := by
        simp [pyContains, hkey]
      simp [extract_app_name, hpc, except_bind_ok, except_pure_eq, pyGetAttrGet, hname]
    · rw [hg] at hA
      simp only [Option.getD_some] at hA
      have hkey : objHasKey ckvs "applications" = true :=
        (objHasKey_iff ckvs "applications").mpr ⟨apps, hg⟩
      have hpc : pyContains (Json.obj ckvs) "applications" = Except.ok true := by
        simp [pyContains, hkey]
      have hps : pySubscript (Json.obj ckvs) "applications" = Except.ok apps := by
        simp [pySubscript, hg]
      simp [extract_app_name, hpc, hps, except_bind_ok, except_pure_eq, hA,
        pyGetAttrGet, hname]

theorem extract_app_name_priority_witness :
    extract_app_name ⟨"x.json", [], .parsed (.obj
      [("applications", .arr [.obj [("name", .str "Foo")]])])⟩ = .ok (some (.str "Foo")) ∧
    extract_app_name ⟨"x.json", [], .parsed (.obj [("name", .str "Bar")])⟩ =
      .ok (some (.str "Bar")) ∧
    extract_app_name ⟨"MyApp.json", [], .parsed (.obj [])⟩ =
      .ok (some (.str "MyApp")) := by
  refine ⟨?_, ?_, ?_⟩
  · exact (extract_app_name_priority "x.json" []
      [("applications", .arr [.obj [("name", .str "Foo")]])]).1
      (.arr [.obj [("name", .str "Foo")]]) (.obj [("name", .str "Foo")]) (.str "Foo")
      rfl rfl rfl rfl rfl
  · exact (extract_app_name_priority "x.json" [] [("name", .str "Bar")]).2.1 rfl rfl
  · have h3 := (extract_app_name_priority "MyApp.json" [] []).2.2 rfl rfl
    simpa using h3

/-- A config with a missing required `pattern` field: it fails validation
cleanly (verdict `False`) without raising. -/
def noPatFile : ConfigFile :=
  ⟨"nopat.json", [], .parsed (.obj [("applications", .arr
    [.obj [("name", .str "NoPat"), ("url", .str "https://x"),
           ("download_dir", .str "d")]])])⟩

/-- C1 counterexample: in a directory containing a file that fails
validation (`noPatFile`) and a file whose first application name is a
number (`name5File`), `build_index` does not return absent — it raises
`AttributeError` (propagated out of `validate_file`), and `update_index`
propagates the exception instead of reporting failure. -/
theorem update_index_crash_counterexample :
    fileVerdict reOkAll none noPatFile = .ok false ∧
    (build_index reOkAll none (some [name5File, noPatFile]) "TS" ⟨[], []⟩).1 =
      .error "AttributeError: value has no attribute lower" ∧
    (build_index reOkAll none (some [name5File, noPatFile]) "TS" ⟨[], []⟩).1 ≠
      .ok none ∧
    update_index reOkAll none (fun _ => []) ⟨some [1], none⟩
      (some [name5File, noPatFile]) "TS" =
      .error "AttributeError: value has no attribute lower" := by
  refine ⟨rfl, rfl, ?_, rfl⟩
  intro h
  rw [(rfl : (build_index reOkAll none (some [name5File, noPatFile]) "TS" ⟨[], []⟩).1 =
    Except.error "AttributeError: value has no attribute lower")] at h
  exact Except.noConfusion h

/-- C1 (amended): all-or-nothing index regeneration holds for
directories on which validation of every file terminates (returns a
verdict rather than raising): if at least one file then fails
validation, `build_index` returns absent and `update_index` reports
failure leaving the persisted files untouched. -/
theorem update_index_all_or_nothing (reOk : String → Bool)
    (schema : Option (Json → List SchemaViolation)) (dump : PyDict → List Nat)
    (fs : RepoFS) (files : List ConfigFile) (now : String)
    (hterm : ∀ f ∈ files, ∃ b, fileVerdict reOk schema f = .ok b)
    (hfail : ∃ f ∈ files, fileVerdict reOk schema f = .ok false) :
    (build_index reOk schema (some files) now ⟨[], []⟩).1 = .ok none ∧
    update_index reOk schema dump fs (some files) now = .ok (false, fs) := by
  have htermS : ∀ f ∈ sortFiles files, ∃ b, fileVerdict reOk schema f = .ok b :=
    fun f hf => hterm f ((sortFiles_perm files).mem_iff.mp hf)
  obtain ⟨acc1, st1, hl⟩ :=
    build_index_loop_total reOk schema (sortFiles files) ⟨[], [], false⟩ ⟨[], []⟩ htermS
  obtain ⟨-, -, hfl⟩ := build_index_loop_ok reOk schema _ _ _ _ _ hl
  have hloopfail : loopFailed reOk schema (sortFiles files) = true := by
    obtain ⟨f, hf, hv⟩ := hfail
    unfold loopFailed
    rw [List.any_eq_true]
    exact ⟨f, (sortFiles_perm files).mem_iff.mpr hf, by simp [hv]⟩
  have hvf : acc1.validation_failed = true := by
    rw [hfl, hloopfail]
    simp
  have hbuild : build_index reOk schema (some files) now ⟨[], []⟩ = (.ok none, st1) := by
    unfold build_index
    dsimp only
    rw [hl]
    dsimp only
    rw [hvf]
    simp
  refine ⟨by rw [hbuild], ?_⟩
  unfold update_index
  rw [hbuild]

theorem update_index_all_or_nothing_witness :
    (build_index reOkAll none (some [noPatFile]) "TS" ⟨[], []⟩).1 = .ok none ∧
    update_index reOkAll none (fun _ => []) ⟨some [1], none⟩ (some [noPatFile]) "TS" =
      .ok (false, ⟨some [1], none⟩) :=
  update_index_all_or_nothing reOkAll none (fun _ => []) ⟨some [1], none⟩ [noPatFile] "TS"
    (by
      intro f hf
      simp only [List.mem_singleton] at hf
      subst hf
      exact ⟨false, rfl⟩)
    ⟨noPatFile, by simp, rfl⟩

/-- A valid config whose resolved application name is `repo_hash`, in a
file named accordingly. -/
def rhFile : ConfigFile :=
  ⟨"repo_hash.json", [97], .parsed (.obj [("applications", .arr
    [.obj [("name", .str "repo_hash"), ("url", .str "https://x"),
           ("download_dir", .str "d"), ("pattern", .str "x")]])])⟩

/-- C5 counterexample: one valid config resolving to the name
`repo_hash` makes `build_index` succeed with an index whose `repo_hash`
key holds that application entry (a two-element array) — the `**apps`
splat of the dict literal overwrites the metadata value, so the index no
longer carries a `"sha256:..."` string under `repo_hash`. -/
theorem build_index_metadata_counterexample :
    ∃ idx, (build_index reOkAll none (some [rhFile]) "TS" ⟨[], []⟩).1 = .ok (some idx) ∧
      dictGet idx (.str "repo_hash") =
        some (.arr [.str "configs/repo_hash.json", .str (compute_sha256 [97])]) ∧
      ∀ s, dictGet idx (.str "repo_hash") ≠ some (.str s) := by
  refine ⟨assembleIndex (loopApps reOkAll none (sortFiles [rhFile]) [])
    (loopHashes reOkAll none (sortFiles [rhFile])) "TS", rfl, rfl, ?_⟩
  intro s h
  rw [(rfl : dictGet (assembleIndex (loopApps reOkAll none (sortFiles [rhFile]) [])
    (loopHashes reOkAll none (sortFiles [rhFile])) "TS") (.str "repo_hash") =
    some (.arr [.str "configs/repo_hash.json", .str (compute_sha256 [97])]))] at h
  injection h with h1
  exact Json.noConfusion h1

/-- C5 (amended): when no file of the directory resolves to the reserved
names `repo_hash` or `generated_at`, every index a successful
`build_index` returns holds under `repo_hash` the string
`compute_repo_hash` of the collected per-file hashes — a
`"sha256:" ++ <64 hex chars>` string — and under `generated_at` the
timestamp string. -/
theorem build_index_metadata (reOk : String → Bool)
    (schema : Option (Json → List SchemaViolation)) (files : List ConfigFile)
    (now : String) (idx : PyDict)
    (hb : (build_index reOk schema (some files) now ⟨[], []⟩).1 = .ok (some idx))
    (hno : ∀ f ∈ files, resolvesTo reOk schema f "repo_hash" = false ∧
      resolvesTo reOk schema f "generated_at" = false) :
    dictGet idx (.str "repo_hash") =
      some (.str (compute_repo_hash (loopHashes reOk schema (sortFiles files)))) ∧
    dictGet idx (.str "generated_at") = some (.str now) ∧
    ∃ hex, compute_repo_hash (loopHashes reOk schema (sortFiles files)) =
      "sha256:" ++ hex ∧ hex.toList.length = 64 ∧ ∀ c ∈ hex.toList, c ∈ hexChars := by
  obtain ⟨hidx, htermS⟩ := build_index_some reOk schema files now idx hb
  have hsn : StrNodupKeys (loopApps reOk schema (sortFiles files) []) :=
    loopApps_strNodup reOk schema (sortFiles files) htermS [] ⟨by simp, List.nodup_nil⟩
  have hkey : ∀ n : String,
      dictGet idx (.str n) =
        match lastResolve reOk schema n (sortFiles files) with
        | some g => some (fileEntry g)
        | none =>
          dictGet [(Json.str "repo_hash",
                    Json.str (compute_repo_hash (loopHashes reOk schema (sortFiles files)))),
                   (Json.str "generated_at", Json.str now)] (.str n) := by
    intro n
    have h1 := dictGet_foldl_set_str n (loopApps reOk schema (sortFiles files) []) hsn.1
      [(Json.str "repo_hash",
        Json.str (compute_repo_hash (loopHashes reOk schema (sortFiles files)))),
       (Json.str "generated_at", Json.str now)]
    have hlk := lastKey_eq_dictGet n (loopApps reOk schema (sortFiles files) []) hsn
    have hgl := dictGet_loopApps reOk schema n (sortFiles files) htermS []
    rw [hidx]
    unfold assembleIndex
    rw [h1, hlk, hgl]
    rcases lastResolve reOk schema n (sortFiles files) with _ | g <;> rfl
  refine ⟨?_, ?_, sha256hex _, rfl, sha256hex_length _, fun c hc => sha256hex_mem _ c hc⟩
  · have hrh : lastResolve reOk schema "repo_hash" (sortFiles files) = none :=
      lastResolve_none reOk schema "repo_hash" (sortFiles files)
        (fun g hg => (hno g ((sortFiles_perm files).mem_iff.mp hg)).1)
    rw [hkey "repo_hash", hrh]
    rfl
  · have hga : lastResolve reOk schema "generated_at" (sortFiles files) = none :=
      lastResolve_none reOk schema "generated_at" (sortFiles files)
        (fun g hg => (hno g ((sortFiles_perm files).mem_iff.mp hg)).2)
    rw [hkey "generated_at", hga]
    rfl

theorem build_index_metadata_witness :
    dictGet (assembleIndex (loopApps reOkAll none (sortFiles [validFile]) [])
        (loopHashes reOkAll none (sortFiles [validFile])) "TS") (.str "repo_hash") =
      some (.str (compute_repo_hash (loopHashes reOkAll none (sortFiles [validFile])))) ∧
    dictGet (assembleIndex (loopApps reOkAll none (sortFiles [validFile]) [])
        (loopHashes reOkAll none (sortFiles [validFile])) "TS") (.str "generated_at") =
      some (.str "TS") :=
  have h := build_index_metadata reOkAll none [validFile] "TS"
    (assembleIndex (loopApps reOkAll none (sortFiles [validFile]) [])
      (loopHashes reOkAll none (sortFiles [validFile])) "TS") rfl
    (by
      intro f hf
      simp only [List.mem_singleton] at hf
      subst hf
      exact ⟨rfl, rfl⟩)
  ⟨h.1, h.2.1⟩

/-- Two valid configs both resolving to the name `App`, in files
`a.json` and `b.json`. -/
def aFile : ConfigFile :=
  ⟨"a.json", [97], .parsed (.obj [("applications", .arr
    [.obj [("name", .str "App"), ("url", .str "https://a"),
           ("download_dir", .str "d"), ("pattern", .str "x")]])])⟩

def bFile : ConfigFile :=
  ⟨"b.json", [98], .parsed (.obj [("applications", .arr
    [.obj [("name", .str "App"), ("url", .str "https://b"),
           ("download_dir", .str "d"), ("pattern", .str "x")]])])⟩

/-- C9: duplicate-name collision behavior — on a directory of files with
distinct file names where a successful build sees several valid files
resolving to the same application name `n`, the returned index maps `n`
to the path/content-hash entry of the lexicographically last such file
(`lastf`), while the content hash of every valid file (including the
overwritten ones) is in the hash list the index assembly feeds to the
`repo_hash` computation. -/
theorem build_index_duplicate_last_wins (reOk : String → Bool)
    (schema : Option (Json → List SchemaViolation)) (files : List ConfigFile)
    (now : String) (idx : PyDict) (n : String) (lastf : ConfigFile)
    (hb : (build_index reOk schema (some files) now ⟨[], []⟩).1 = .ok (some idx))
    (hnodup : (files.map ConfigFile.name).Nodup)
    (hmem : lastf ∈ files)
    (hres : resolvesTo reOk schema lastf n = true)
    (hmax : ∀ g ∈ files, resolvesTo reOk schema g n = true →
      strLe g.name lastf.name = true) :
    dictGet idx (.str n) =
      some (.arr [.str ("configs/" ++ lastf.name),
                  .str (compute_sha256 lastf.content)]) ∧
    (∀ g ∈ files, fileVerdict reOk schema g = .ok true →
      ∀ v, extract_app_name g = .ok (some v) →
      compute_sha256 g.content ∈ loopHashes reOk schema (sortFiles files)) ∧
    idx = assembleIndex (loopApps reOk schema (sortFiles files) [])
      (loopHashes reOk schema (sortFiles files)) now := by
  obtain ⟨hidx, htermS⟩ := build_index_some reOk schema files now idx hb
  have hperm := sortFiles_perm files
  refine ⟨?_, ?_, hidx⟩
  · have hmemS : lastf ∈ sortFiles files := hperm.mem_iff.mpr hmem
    have hnodupS : ((sortFiles files).map ConfigFile.name).Nodup :=
      (hperm.map ConfigFile.name).nodup_iff.mpr hnodup
    have hmaxS : ∀ g ∈ sortFiles files, resolvesTo reOk schema g n = true →
        strLe g.name lastf.name = true :=
      fun g hg => hmax g (hperm.mem_iff.mp hg)
    have hlr := lastResolve_eq reOk schema n (sortFiles files) lastf
      (sortFiles_sorted files) hnodupS hmemS hres hmaxS
    have hsn : StrNodupKeys (loopApps reOk schema (sortFiles files) []) :=
      loopApps_strNodup reOk schema (sortFiles files) htermS [] ⟨by simp, List.nodup_nil⟩
    have h1 := dictGet_foldl_set_str n (loopApps reOk schema (sortFiles files) []) hsn.1
      [(Json.str "repo_hash",
        Json.str (compute_repo_hash (loopHashes reOk schema (sortFiles files)))),
       (Json.str "generated_at", Json.str now)]
    have hlk := lastKey_eq_dictGet n (loopApps reOk schema (sortFiles files) []) hsn
    have hgl := dictGet_loopApps reOk schema n (sortFiles files) htermS []
    rw [hidx]
    unfold assembleIndex
    rw [h1, hlk, hgl, hlr]
    rfl
  · intro g hg hgv v hge
    exact loopHashes_mem reOk schema (sortFiles files) g (hperm.mem_iff.mpr hg) hgv v hge

theorem build_index_duplicate_last_wins_witness :
    dictGet (assembleIndex (loopApps reOkAll none (sortFiles [aFile, bFile]) [])
        (loopHashes reOkAll none (sortFiles [aFile, bFile])) "TS") (.str "App") =
      some (.arr [.str ("configs/" ++ "b.json"), .str (compute_sha256 [98])]) ∧
    compute_sha256 [97] ∈ loopHashes reOkAll none (sortFiles [aFile, bFile]) :=
  have h := build_index_duplicate_last_wins reOkAll none [aFile, bFile] "TS"
    (assembleIndex (loopApps reOkAll none (sortFiles [aFile, bFile]) [])
      (loopHashes reOkAll none (sortFiles [aFile, bFile])) "TS") "App" bFile
    rfl (by decide) (by simp) rfl
    (by
      intro g hg hr
      simp only [List.mem_cons, List.not_mem_nil, or_false] at hg
      rcases hg with rfl | rfl
      · exact rfl
      · exact rfl)
  ⟨h.1, h.2.1 aFile (by simp) rfl (.str "App") rfl⟩
